import Mathlib

/-!
# git-workflow/createFB.go

A shallow embedding of `createFB.go`: the catalog lookup, the repository
materializer `getRepository`, the branch provisioner `checkoutAndResetBranch`,
`createStableBranch` and the project loop of `main`.

Go strings are Lean `String`s, read as lists of characters; the two library
string routines the program calls (`strings.NewReplacer(..).Replace` and
`strings.Split`) are given on these lists. Both look for ASCII text ("-SNAPSHOT",
","), for which matching bytes and matching characters is the same on UTF-8. Effects (logging, `os`, go-git) are made explicit:
every call is appended to a trace, `os.Remove` acts on a small filesystem
model, and the behaviour of the calls that reach outside the program
(`os.MkdirAll`, `git.PlainOpen`, `git.PlainClone`, `Repository.Worktree`,
`Worktree.Checkout`) is a parameter `Env`.
-/

set_option autoImplicit false

namespace GitWorkflow

/-! ## Data model -/

/-- The text of a Go `error` value. -/
abbrev GoError := String

/-- The `Release` struct of `createFB.go`. -/
structure Release where
  Branch : String
  Version : String
  CurrentSnapshot : String
  NextSnapshot : String
deriving DecidableEq, Repr

/-- The `Project` struct of `createFB.go`. -/
structure Project where
  Name : String
  Organization : String
  Labels : String
  MavenVersionProperty : String
  Release : Release
deriving DecidableEq, Repr

/-- The Go zero value `Project{}`. -/
def Project.zero : Project :=
  { Name := "", Organization := "", Labels := "", MavenVersionProperty := "",
    Release := { Branch := "", Version := "", CurrentSnapshot := "", NextSnapshot := "" } }

/-- The `args` struct; `WorkDir` is preset to `"work"` by `init`. -/
structure Args where
  Catalog : String
  Projects : String
  WorkDir : String
deriving DecidableEq, Repr

/-- The package variable `gitUrl`. -/
def gitUrl : String := "git@github.com"

/-! ## Library string routines -/

/-- `strings.NewReplacer(old, new).Replace` for one pair with a non-empty `old`,
on character lists: the text is scanned from the left, every match of `old`
found is replaced by `new` and the scan resumes right after the match, so
matches never overlap and the text produced is not scanned again. The first
argument counts the characters of a match still to be skipped. -/
def replaceScan (old new : List Char) : Nat → List Char → List Char
  | _, [] => []
  | 0, c :: cs =>
    if old.isPrefixOf (c :: cs) then new ++ replaceScan old new (old.length - 1) cs
    else c :: replaceScan old new 0 cs
  | k + 1, _ :: cs => replaceScan old new k cs

/-- `strings.NewReplacer(old, new).Replace(s)`. -/
def stringsReplace (old new s : String) : String :=
  String.mk (replaceScan old.data new.data 0 s.data)

/-- `strings.Split` for a one-character separator, on character lists: cut at
every separator, keep every piece, also the empty ones. -/
def splitChars (sep : Char) : List Char → List (List Char)
  | [] => [[]]
  | c :: cs =>
    if c = sep then [] :: splitChars sep cs
    else
      match splitChars sep cs with
      | [] => [[c]]
      | p :: ps => (c :: p) :: ps

/-- `strings.Split(s, ",")`. -/
def stringsSplitComma (s : String) : List String :=
  (splitChars ',' s.data).map String.mk

/-- `fmt.Sprint` of a `[]string`, as `log.Info(projects)` prints it. -/
def sprintStrings (xs : List String) : String :=
  "[" ++ " ".intercalate xs ++ "]"

/-- The value of `stableBranch` in `createStableBranch`. -/
def stableBranchName (currentSnapshot : String) : String :=
  "stable/" ++ stringsReplace "-SNAPSHOT" "" currentSnapshot

/-- `strings.Contains(s, substr)`: `substr` occurs in `s`. -/
def stringsContains (s substr : String) : Prop :=
  substr.data <:+: s.data

instance (s substr : String) : Decidable (stringsContains s substr) :=
  inferInstanceAs (Decidable (substr.data <:+: s.data))

/-- `strings.HasPrefix(s, pre)`: `s` starts with `pre`. -/
def stringsHasPrefix (s pre : String) : Prop :=
  pre.data <+: s.data

instance (s pre : String) : Decidable (stringsHasPrefix s pre) :=
  inferInstanceAs (Decidable (pre.data <+: s.data))

/-! ## Catalog lookup -/

/-- The function `getProjectInCatalog`; the package variable `catalog` is an argument. -/
def getProjectInCatalog (catalog : List Project) (n : String) : Project × Option GoError :=
  match catalog with
  | [] => (Project.zero, some ("No project " ++ n ++ " found in the catalog"))
  | p :: rest => if n = p.Name then (p, none) else getProjectInCatalog rest n

/-! ## The world the program acts on -/

/-- What a path of the filesystem holds. -/
inductive Node where
  | file
  | dir
deriving DecidableEq, Repr

/-- A filesystem: the paths that exist, each with what it holds. The entries
below a directory `d` are the paths that start with `d ++ "/"`. -/
abbrev FileSystem := List (String × Node)

/-- What the path `path` holds, if it exists. -/
def FileSystem.node (fs : FileSystem) (path : String) : Option Node :=
  fs.lookup path

/-- Whether `q` lies strictly below the directory `path`. -/
def isBelow (path q : String) : Bool :=
  (path ++ "/").data.isPrefixOf q.data

/-- Whether some entry lies below `path`. -/
def FileSystem.hasEntriesBelow (fs : FileSystem) (path : String) : Bool :=
  fs.any fun e => isBelow path e.1

/-- Whether the path `path` is free: nothing at it and nothing below it. -/
def FileSystem.vacant (fs : FileSystem) (path : String) : Bool :=
  fs.all fun e => e.1 != path && !isBelow path e.1

/-- `os.Remove`: "removes the named file or (empty) directory"; a missing path
and a directory that still has entries are errors and leave the filesystem as
it is. -/
def osRemove (fs : FileSystem) (path : String) : FileSystem × Option GoError :=
  match fs.node path with
  | none => (fs, some ("remove " ++ path ++ ": no such file or directory"))
  | some Node.file => (fs.filter fun e => e.1 != path, none)
  | some Node.dir =>
    if fs.hasEntriesBelow path then (fs, some ("remove " ++ path ++ ": directory not empty"))
    else (fs.filter fun e => e.1 != path, none)

deriving instance DecidableEq for Except

/-- A `*git.Repository` handle. -/
structure Repository where
  handle : Nat
deriving DecidableEq, Repr

/-- A `*git.Worktree` handle. -/
structure Worktree where
  handle : Nat
deriving DecidableEq, Repr

/-- The fields of `git.CloneOptions` that `getRepository` sets; `Progress` is
`os.Stdout` exactly when `ProgressStdout` holds. -/
structure CloneOptions where
  URL : String
  RecurseSubmodules : Nat
  ProgressStdout : Bool
deriving DecidableEq, Repr

/-- The constant `git.DefaultSubmoduleRecursionDepth` of go-git. -/
def DefaultSubmoduleRecursionDepth : Nat := 10

/-- The fields of `git.CheckoutOptions` that `checkoutAndResetBranch` sets. -/
structure CheckoutOptions where
  Branch : String
  Force : Bool
deriving DecidableEq, Repr

/-- The logrus levels the program uses. -/
inductive Level where
  | info
  | warn
  | fatal
deriving DecidableEq, Repr

/-- One observable action of the program, in the order of the run. -/
inductive Event where
  | log (level : Level) (fields : List (String × String)) (msg : String)
  | mkdirAll (path : String)
  | plainOpen (path : String)
  | remove (path : String)
  | plainClone (path : String) (isBare : Bool) (o : CloneOptions)
  | worktree (r : Repository)
  | checkout (w : Worktree) (o : CheckoutOptions)
deriving DecidableEq, Repr

/-- The behaviour of the calls that leave the program. Each may depend on the
filesystem it finds; those that write return the filesystem they leave. -/
structure Env where
  mkdirAll : FileSystem → String → FileSystem × Option GoError
  plainOpen : FileSystem → String → Except GoError Repository
  plainClone : FileSystem → String → Bool → CloneOptions → FileSystem × Except GoError Repository
  worktree : FileSystem → Repository → Except GoError Worktree
  checkout : FileSystem → Worktree → CheckoutOptions → FileSystem × Option GoError

/-- The state of a run: the filesystem and the actions performed so far. -/
structure World where
  fs : FileSystem
  trace : List Event
deriving DecidableEq, Repr

/-- Record an action. -/
def World.emit (w : World) (e : Event) : World :=
  { w with trace := w.trace ++ [e] }

/-- How a function that may call `log.Fatal` ends: it returns, or the process
exits with the given code. -/
inductive Outcome (α : Type) where
  | returned (a : α)
  | exited (code : Nat)
deriving DecidableEq, Repr

/-- `log.Fatal(msg)`: a fatal-level entry, then `os.Exit(1)`. -/
def logFatal {α : Type} (w : World) (msg : String) : Outcome α × World :=
  (Outcome.exited 1, w.emit (Event.log Level.fatal [] msg))

/-! ## The program -/

/-- The function `getRepository`. -/
def getRepository (env : Env) (args : Args) (p : Project) (w : World) :
    Except GoError Repository × World :=
  let gitUrl := gitUrl ++ ":" ++ p.Organization ++ "/" ++ p.Name
  let dir := args.WorkDir ++ "/" ++ p.Organization ++ "/" ++ p.Name
  let w := w.emit (Event.log Level.info [("gitUrl", gitUrl), ("directory", dir)] "Cloning project...")
  let w := w.emit (Event.mkdirAll (args.WorkDir ++ "/" ++ p.Organization))
  match env.mkdirAll w.fs (args.WorkDir ++ "/" ++ p.Organization) with
  | (fs, some err) => (Except.error err, { w with fs := fs })
  | (fs, none) =>
    let w := { w with fs := fs }
    let w := w.emit (Event.log Level.info [] ("Opening repository on " ++ dir))
    let w := w.emit (Event.plainOpen dir)
    match env.plainOpen w.fs dir with
    | Except.ok r => (Except.ok r, w)
    | Except.error err =>
      let w := w.emit (Event.log Level.info [("error", err)]
        ("Error open " ++ dir ++ ", Try to clean and clone it"))
      let w := w.emit (Event.remove dir)
      let w := { w with fs := (osRemove w.fs dir).1 }
      let o : CloneOptions :=
        { URL := gitUrl, RecurseSubmodules := DefaultSubmoduleRecursionDepth,
          ProgressStdout := true }
      let w := w.emit (Event.plainClone dir false o)
      match env.plainClone w.fs dir false o with
      | (fs, Except.error err) => (Except.error err, { w with fs := fs })
      | (fs, Except.ok r) => (Except.ok r, { w with fs := fs })

/-- The function `checkoutAndResetBranch`. -/
def checkoutAndResetBranch (env : Env) (r : Repository) (b : String) (w : World) :
    Outcome Unit × World :=
  let w := w.emit (Event.log Level.info [] ("checkout and reset " ++ b))
  let w := w.emit (Event.worktree r)
  match env.worktree w.fs r with
  | Except.error err => logFatal w err
  | Except.ok wt =>
    let o : CheckoutOptions := { Branch := "ref/heads/" ++ b, Force := true }
    let w := w.emit (Event.checkout wt o)
    match env.checkout w.fs wt o with
    | (fs, some err) => logFatal { w with fs := fs } err
    | (fs, none) => (Outcome.returned (), { w with fs := fs })

/-- The function `createStableBranch`. -/
def createStableBranch (env : Env) (args : Args) (p : Project) (w : World) :
    Outcome (Option GoError) × World :=
  match getRepository env args p w with
  | (Except.error err, w) => (Outcome.returned (some err), w)
  | (Except.ok r, w) =>
    let stableVersion := stringsReplace "-SNAPSHOT" "" p.Release.CurrentSnapshot
    let stableBranch := "stable/" ++ stableVersion
    let originBranch := p.Release.Branch
    let w := w.emit (Event.log Level.info
      [("project", p.Name), ("originBranch", originBranch), ("stableBranch", stableBranch)]
      "Creating stable branch")
    match checkoutAndResetBranch env r originBranch w with
    | (Outcome.exited c, w) => (Outcome.exited c, w)
    | (Outcome.returned _, w) => (Outcome.returned none, w)

/-- One pass of the body of the `for` loop of `main`, for the name `p`. -/
def processProject (env : Env) (args : Args) (catalog : List Project) (p : String) (w : World) :
    Outcome Unit × World :=
  let w := w.emit (Event.log Level.warn [] ("Creating stable branch for project " ++ p))
  match getProjectInCatalog catalog p with
  | (_, some err) => logFatal w err
  | (cp, none) =>
    let w := w.emit (Event.log Level.info
      [("name", cp.Name), ("orga", cp.Organization),
       ("current_version", cp.Release.CurrentSnapshot),
       ("next_version", cp.Release.NextSnapshot)] "project found")
    match createStableBranch env args cp w with
    | (Outcome.exited c, w) => (Outcome.exited c, w)
    | (Outcome.returned (some err), w) => logFatal w err
    | (Outcome.returned none, w) => (Outcome.returned (), w)

/-- The `for _, p := range projects` loop of `main`. -/
def forProjects (env : Env) (args : Args) (catalog : List Project) :
    List String → World → Outcome Unit × World
  | [], w => (Outcome.returned (), w)
  | p :: rest, w =>
    match processProject env args catalog p w with
    | (Outcome.exited c, w) => (Outcome.exited c, w)
    | (Outcome.returned _, w) => forProjects env args catalog rest w

/-- The function `main` from the point where the package variable `catalog` has
been loaded (here an argument): split the `Projects` argument, log the names,
run the loop. -/
def main (env : Env) (args : Args) (catalog : List Project) (w : World) :
    Outcome Unit × World :=
  let projects := stringsSplitComma args.Projects
  let w := w.emit (Event.log Level.info [] (sprintStrings projects))
  forProjects env args catalog projects w

/-! ## Reading a trace -/

/-- The paths of the `git.PlainOpen` calls of a trace, in order. -/
def openCalls (tr : List Event) : List String :=
  tr.filterMap fun e => match e with
    | Event.plainOpen path => some path
    | _ => none

/-- The paths of the `os.Remove` calls of a trace, in order. -/
def removeCalls (tr : List Event) : List String :=
  tr.filterMap fun e => match e with
    | Event.remove path => some path
    | _ => none

/-- The `git.PlainClone` calls of a trace, in order: path, `isBare`, options. -/
def cloneCalls (tr : List Event) : List (String × Bool × CloneOptions) :=
  tr.filterMap fun e => match e with
    | Event.plainClone path isBare o => some (path, isBare, o)
    | _ => none

/-- The options of the `Worktree.Checkout` calls of a trace, in order. -/
def checkoutCalls (tr : List Event) : List CheckoutOptions :=
  tr.filterMap fun e => match e with
    | Event.checkout _ o => some o
    | _ => none

/-- The messages logged at level `warn`, in order; the program logs at this
level once per loop pass, before it resolves the name. -/
def warnMessages (tr : List Event) : List String :=
  tr.filterMap fun e => match e with
    | Event.log Level.warn _ msg => some msg
    | _ => none

/-! ## A concrete environment for the examples -/

/-- An environment to run the program in: `MkdirAll` adds the directory when the
path is free, a repository is a directory with a `.git` directory in it, a
clone adds the directory and its `.git` and keeps what is there, and the only
reference a checkout finds is `refs/heads/main`. -/
def exampleEnv : Env where
  mkdirAll fs path :=
    match fs.node path with
    | none => (fs ++ [(path, Node.dir)], none)
    | some Node.dir => (fs, none)
    | some Node.file => (fs, some ("mkdir " ++ path ++ ": not a directory"))
  plainOpen fs path :=
    if fs.node (path ++ "/.git") = some Node.dir then Except.ok { handle := 1 }
    else Except.error "repository does not exist"
  plainClone fs path _ _ :=
    ((if fs.node path = none then fs ++ [(path, Node.dir)] else fs)
      ++ [(path ++ "/.git", Node.dir)], Except.ok { handle := 2 })
  worktree _ r := Except.ok { handle := r.handle }
  checkout fs _ o :=
    if o.Branch = "refs/heads/main" then (fs, none) else (fs, some "reference not found")

/-- The example environment with a checkout that finds every reference. -/
def lenientEnv : Env :=
  { exampleEnv with checkout := fun fs _ _ => (fs, none) }

/-- The arguments of the example runs. -/
def exampleArgs : Args :=
  { Catalog := "catalog.json", Projects := "doc-style", WorkDir := "work" }

/-- The catalog entry of the example runs. -/
def docStyle : Project :=
  { Name := "doc-style", Organization := "acme", Labels := "", MavenVersionProperty := "",
    Release := { Branch := "main", Version := "2.1.0", CurrentSnapshot := "2.1.0-SNAPSHOT",
                 NextSnapshot := "2.2.0-SNAPSHOT" } }

/-- The entry doc-style with an origin branch that is already named as the
stable branch of its snapshot version. -/
def stableOrigin : Project :=
  { docStyle with
    Release := { Branch := "stable/2.1.0", Version := "2.1.0",
                 CurrentSnapshot := "2.1.0-SNAPSHOT", NextSnapshot := "2.2.0-SNAPSHOT" } }

/-- A second catalog entry. -/
def platformUi : Project :=
  { Name := "platform-ui", Organization := "acme", Labels := "ui", MavenVersionProperty := "",
    Release := { Branch := "master", Version := "1.0.0", CurrentSnapshot := "1.0.0-SNAPSHOT",
                 NextSnapshot := "1.1.0-SNAPSHOT" } }

/-- A catalog that holds the name "doc-style" twice. -/
def exampleCatalog : List Project :=
  [platformUi, docStyle, { docStyle with Labels := "second" }]

/-- A work directory in which `work/acme/doc-style` is a valid clone. -/
def clonedFs : FileSystem :=
  [("work", Node.dir), ("work/acme", Node.dir), ("work/acme/doc-style", Node.dir),
   ("work/acme/doc-style/.git", Node.dir)]

/-- A work directory in which `work/acme/doc-style` is a directory that holds
one file and no repository. -/
def brokenFs : FileSystem :=
  [("work", Node.dir), ("work/acme", Node.dir), ("work/acme/doc-style", Node.dir),
   ("work/acme/doc-style/junk", Node.file)]

/-! ## Lemmas on the string routines -/

theorem World.emit_fs (w : World) (e : Event) : (w.emit e).fs = w.fs := rfl

theorem World.emit_trace (w : World) (e : Event) : (w.emit e).trace = w.trace ++ [e] := rfl


theorem replaceScan_skip (old new : List Char) (k : Nat) (xs : List Char) :
    replaceScan old new k xs = replaceScan old new 0 (xs.drop k) := by
  induction k generalizing xs with
  | zero => simp
  | succ k ih =>
    cases xs with
    | nil => simp [replaceScan]
    | cons c cs => simp [replaceScan, ih cs]

theorem replaceScan_cons_of_not_isPrefix (old new : List Char) (c : Char) (cs : List Char)
    (h : ¬ old <+: c :: cs) :
    replaceScan old new 0 (c :: cs) = c :: replaceScan old new 0 cs := by
  have h2 : old.isPrefixOf (c :: cs) = false := by
    rw [Bool.eq_false_iff]
    intro hp
    exact h (List.isPrefixOf_iff_prefix.mp hp)
  simp [replaceScan, h2]

theorem replaceScan_of_not_isInfix (old new : List Char) (v : List Char)
    (h : ¬ old <:+: v) : replaceScan old new 0 v = v := by
  induction v with
  | nil => simp [replaceScan]
  | cons c v ih =>
    have h1 : ¬ old <+: c :: v := fun hp => h hp.isInfix
    have h2 : ¬ old <:+: v := fun hi => h (List.infix_cons hi)
    rw [replaceScan_cons_of_not_isPrefix old new c v h1, ih h2]

/-- A token whose first character does not occur again in it cannot start
inside a token-free text `v` and run into a following copy of itself. -/
theorem not_isPrefix_append_token (t : Char) (ts v rest : List Char) (ht : t ∉ ts)
    (hv : ¬ (t :: ts) <:+: v) (hne : v ≠ []) :
    ¬ (t :: ts) <+: v ++ ((t :: ts) ++ rest) := by
  intro hp
  have hv' : v <+: v ++ ((t :: ts) ++ rest) := List.prefix_append _ _
  rcases Nat.le_total (t :: ts).length v.length with hle | hle
  · exact hv (List.prefix_of_prefix_length_le hp hv' hle).isInfix
  · have hpre : v <+: t :: ts := List.prefix_of_prefix_length_le hv' hp hle
    obtain ⟨u, hu⟩ := hpre
    obtain ⟨z, hz⟩ := hp
    have hz2 : v ++ (u ++ z) = v ++ ((t :: ts) ++ rest) := by
      rw [← List.append_assoc, hu]
      exact hz
    have hz3 : u ++ z = (t :: ts) ++ rest := List.append_cancel_left hz2
    cases v with
    | nil => exact hne rfl
    | cons c v =>
      cases u with
      | nil =>
        simp only [List.append_nil] at hu
        exact hv (hu ▸ List.infix_refl _)
      | cons d u =>
        have hd : d = t := by
          have h5 : d :: (u ++ z) = t :: (ts ++ rest) := by simpa using hz3
          exact (List.cons.inj h5).1
        have hmem : d ∈ ts := by
          have h3 : c :: (v ++ d :: u) = t :: ts := by simpa using hu
          have h4 : v ++ d :: u = ts := (List.cons.inj h3).2
          rw [← h4]
          simp
        exact ht (hd ▸ hmem)

theorem replaceScan_append_token (t : Char) (ts v rest : List Char) (ht : t ∉ ts)
    (hv : ¬ (t :: ts) <:+: v) :
    replaceScan (t :: ts) [] 0 (v ++ ((t :: ts) ++ rest)) = v ++ replaceScan (t :: ts) [] 0 rest := by
  induction v with
  | nil =>
    have hp : (t :: ts).isPrefixOf (t :: (ts ++ rest)) = true :=
      List.isPrefixOf_iff_prefix.mpr ⟨rest, rfl⟩
    simp only [List.nil_append, List.cons_append, replaceScan, hp, if_true, List.length_cons,
      Nat.add_sub_cancel]
    rw [replaceScan_skip]
    simp
  | cons c v ih =>
    have h2 : ¬ (t :: ts) <:+: v := fun hi => hv (List.infix_cons hi)
    have h1 := not_isPrefix_append_token t ts (c :: v) rest ht hv (by simp)
    rw [List.cons_append] at h1 ⊢
    rw [replaceScan_cons_of_not_isPrefix _ _ _ _ h1, ih h2]
    rfl

/-- Removal is global on a text made of token-free pieces joined by the token. -/
theorem replaceScan_join (t : Char) (ts : List Char) (ht : t ∉ ts) (v : List Char)
    (vs : List (List Char)) (hv : ¬ (t :: ts) <:+: v) (hvs : ∀ x ∈ vs, ¬ (t :: ts) <:+: x) :
    replaceScan (t :: ts) [] 0 (v ++ (vs.map fun x => (t :: ts) ++ x).flatten)
      = v ++ vs.flatten := by
  induction vs generalizing v with
  | nil => simpa using replaceScan_of_not_isInfix (t :: ts) [] v hv
  | cons x vs ih =>
    have hx : ¬ (t :: ts) <:+: x := hvs x (by simp)
    have hrest : ∀ y ∈ vs, ¬ (t :: ts) <:+: y := fun y hy => hvs y (by simp [hy])
    simp only [List.map_cons, List.flatten_cons, List.append_assoc]
    rw [replaceScan_append_token t ts v _ ht hv, ih x hx hrest]

theorem intercalate_go_data (acc s : String) (xs : List String) :
    (String.intercalate.go acc s xs).data
      = acc.data ++ (xs.map fun x => s.data ++ x.data).flatten := by
  induction xs generalizing acc with
  | nil => simp [String.intercalate.go]
  | cons x xs ih => simp [String.intercalate.go, ih, List.append_assoc]

theorem intercalate_cons_data (s v : String) (vs : List String) :
    (s.intercalate (v :: vs)).data = v.data ++ (vs.map fun x => s.data ++ x.data).flatten := by
  simp [String.intercalate, intercalate_go_data]

theorem not_isInfix_append_of_head_not_mem (t : Char) (ts pre x : List Char) (ht : t ∉ pre)
    (hx : ¬ (t :: ts) <:+: x) : ¬ (t :: ts) <:+: pre ++ x := by
  induction pre with
  | nil => simpa using hx
  | cons c pre ih =>
    have hc : t ≠ c := fun h => ht (by simp [h])
    have hpre : t ∉ pre := fun h => ht (by simp [h])
    intro hi
    rw [List.cons_append, List.infix_cons_iff] at hi
    rcases hi with hp | hi
    · exact hc (List.cons_prefix_cons.mp hp).1
    · exact ih hpre hi

theorem stableBranchName_data (s : String) :
    (stableBranchName s).data
      = "stable/".data ++ replaceScan "-SNAPSHOT".data [] 0 s.data := by
  simp [stableBranchName, stringsReplace]

theorem stableBranchName_intercalate (v : String) (vs : List String)
    (h : ∀ x ∈ v :: vs, ¬ stringsContains x "-SNAPSHOT") :
    stableBranchName ("-SNAPSHOT".intercalate (v :: vs)) = "stable/" ++ String.join (v :: vs) := by
  apply String.ext
  rw [stableBranchName_data, intercalate_cons_data]
  have htok : "-SNAPSHOT".data = '-' :: "SNAPSHOT".data := rfl
  have hts : '-' ∉ "SNAPSHOT".data := by decide
  have hv : ¬ ('-' :: "SNAPSHOT".data) <:+: v.data := h v (by simp)
  have hvs : ∀ x ∈ vs.map String.data, ¬ ('-' :: "SNAPSHOT".data) <:+: x := by
    intro x hx
    obtain ⟨y, hy, rfl⟩ := List.mem_map.mp hx
    exact h y (by simp [hy])
  have key := replaceScan_join '-' "SNAPSHOT".data hts v.data (vs.map String.data) hv hvs
  rw [List.map_map] at key
  rw [htok]
  simp only [String.data_append, String.data_join, List.map_cons, List.flatten_cons]
  exact congrArg _ key

/-! ## Version Namer -/

/-- C8: removal of the token is global. For every non-empty list of strings none
of which contains "-SNAPSHOT", the stable branch name of the strings joined by
"-SNAPSHOT" is "stable/" followed by the strings one after the other. The empty
input gives "stable/", an input without the token gives "stable/" followed by
the input, and "1.4.0-SNAPSHOT" gives "stable/1.4.0". -/
theorem stableBranchName_removes_every_token :
    (∀ l : List String, l ≠ [] → (∀ x ∈ l, ¬ stringsContains x "-SNAPSHOT") →
      stableBranchName ("-SNAPSHOT".intercalate l) = "stable/" ++ String.join l) ∧
    stableBranchName "" = "stable/" ∧
    (∀ v : String, ¬ stringsContains v "-SNAPSHOT" → stableBranchName v = "stable/" ++ v) ∧
    stableBranchName "1.4.0-SNAPSHOT" = "stable/1.4.0" := by
  refine ⟨?_, by decide, ?_, by decide⟩
  · intro l hl h
    cases l with
    | nil => exact absurd rfl hl
    | cons v vs => exact stableBranchName_intercalate v vs h
  · intro v hv
    have h := stableBranchName_intercalate v [] (by simpa using hv)
    have h1 : "-SNAPSHOT".intercalate [v] = v := rfl
    have h2 : String.join [v] = v := by
      apply String.ext
      simp
    rw [h1, h2] at h
    exact h

/-- C8 at concrete inputs: three pieces joined by two tokens, and the snapshot
version "1.4.0-SNAPSHOT" read as the pieces "1.4.0" and "". -/
theorem stableBranchName_removes_every_token_witness :
    stableBranchName "1.4-SNAPSHOT.0-SNAPSHOT-rc1" = "stable/1.4.0-rc1" ∧
    stableBranchName ("-SNAPSHOT".intercalate ["1.4.0", ""]) = "stable/" ++ String.join ["1.4.0", ""] :=
  ⟨stableBranchName_removes_every_token.1 ["1.4", ".0", "-rc1"] (by decide) (by decide),
   stableBranchName_removes_every_token.1 ["1.4.0", ""] (by decide) (by decide)⟩

/-- C4 as stated fails: the text around a removed token can close up to a new
token. From "-SNAP-SNAPSHOTSHOT" the replacer removes the one occurrence it
finds, and the name is "stable/" followed by "-SNAPSHOT". -/
theorem stableBranchName_can_contain_token :
    stableBranchName "-SNAP-SNAPSHOTSHOT" = "stable/-SNAPSHOT" ∧
    ¬ (stringsHasPrefix (stableBranchName "-SNAP-SNAPSHOTSHOT") "stable/" ∧
       ¬ stringsContains (stableBranchName "-SNAP-SNAPSHOTSHOT") "-SNAPSHOT") := by
  decide

/-- C4, amended: for every string `s` the stable branch name starts with
"stable/"; and when `s` is a join, by "-SNAPSHOT", of pieces that do not contain
"-SNAPSHOT" and whose concatenation does not contain it either, the name
contains no occurrence of "-SNAPSHOT". -/
theorem stableBranchName_shape (s : String) :
    stringsHasPrefix (stableBranchName s) "stable/" ∧
    ∀ l : List String, l ≠ [] → s = "-SNAPSHOT".intercalate l →
      (∀ x ∈ l, ¬ stringsContains x "-SNAPSHOT") →
      ¬ stringsContains (String.join l) "-SNAPSHOT" →
      ¬ stringsContains (stableBranchName s) "-SNAPSHOT" := by
  constructor
  · unfold stringsHasPrefix
    rw [stableBranchName_data]
    exact List.prefix_append _ _
  · intro l hl hs h hj
    cases l with
    | nil => exact absurd rfl hl
    | cons v vs =>
      rw [hs, stableBranchName_intercalate v vs h]
      unfold stringsContains at hj ⊢
      rw [String.data_append]
      have htok : "-SNAPSHOT".data = '-' :: "SNAPSHOT".data := rfl
      rw [htok] at hj ⊢
      exact not_isInfix_append_of_head_not_mem '-' "SNAPSHOT".data "stable/".data _
        (by decide) hj

/-- C4, amended, at concrete inputs: an ordinary snapshot version, and a text with
two tokens. -/
theorem stableBranchName_shape_witness :
    (stringsHasPrefix (stableBranchName "1.4.0-SNAPSHOT") "stable/" ∧
      ¬ stringsContains (stableBranchName "1.4.0-SNAPSHOT") "-SNAPSHOT") ∧
    ¬ stringsContains (stableBranchName "a-SNAPSHOTb-SNAPSHOT") "-SNAPSHOT" :=
  ⟨⟨(stableBranchName_shape "1.4.0-SNAPSHOT").1,
    (stableBranchName_shape "1.4.0-SNAPSHOT").2 ["1.4.0", ""] (by decide) (by decide)
      (by decide) (by decide)⟩,
   (stableBranchName_shape "a-SNAPSHOTb-SNAPSHOT").2 ["a", "b", ""] (by decide) (by decide)
      (by decide) (by decide)⟩

/-! ## Catalog Index -/

theorem getProjectInCatalog_absent (c : List Project) (n : String)
    (h : ∀ p ∈ c, p.Name ≠ n) :
    getProjectInCatalog c n
      = (Project.zero, some ("No project " ++ n ++ " found in the catalog")) := by
  induction c with
  | nil => rfl
  | cons p rest ih =>
    have hp : ¬ n = p.Name := fun e => h p (by simp) e.symm
    have hrest : ∀ q ∈ rest, q.Name ≠ n := fun q hq => h q (by simp [hq])
    simp [getProjectInCatalog, hp, ih hrest]

theorem getProjectInCatalog_first (pre : List Project) (p : Project) (post : List Project)
    (n : String) (hp : p.Name = n) (hpre : ∀ q ∈ pre, q.Name ≠ n) :
    getProjectInCatalog (pre ++ p :: post) n = (p, none) := by
  induction pre with
  | nil => simp [getProjectInCatalog, hp]
  | cons q pre ih =>
    have hq : ¬ n = q.Name := fun e => hpre q (by simp) e.symm
    have hrest : ∀ x ∈ pre, x.Name ≠ n := fun x hx => hpre x (by simp [hx])
    simp [getProjectInCatalog, hq, ih hrest]

theorem exists_first_named (c : List Project) (n : String) (h : ∃ p ∈ c, p.Name = n) :
    ∃ pre p post, c = pre ++ p :: post ∧ p.Name = n ∧ ∀ q ∈ pre, q.Name ≠ n := by
  induction c with
  | nil =>
    obtain ⟨p, hp, _⟩ := h
    simp at hp
  | cons a rest ih =>
    by_cases ha : a.Name = n
    · exact ⟨[], a, rest, rfl, ha, by simp⟩
    · obtain ⟨p, hp, hn⟩ := h
      have hmem : p ∈ rest := by
        rcases List.mem_cons.mp hp with e | e
        · exact absurd (e ▸ hn) ha
        · exact e
      obtain ⟨pre, x, post, hc, hx, hpre⟩ := ih ⟨p, hmem, hn⟩
      refine ⟨a :: pre, x, post, by simp [hc], hx, ?_⟩
      intro q hq
      rcases List.mem_cons.mp hq with e | e
      · exact e ▸ ha
      · exact hpre q e

/-- C6: `getProjectInCatalog` returns an error exactly when no entry of the
catalog has the name asked for (then with the zero project and the not-found
message); otherwise it returns, with a nil error, the first entry in catalog
order that has the name, the whole record unchanged. A name present once
yields that entry. -/
theorem getProjectInCatalog_resolve (c : List Project) (n : String) :
    ((∃ err, (getProjectInCatalog c n).2 = some err) ↔ ∀ p ∈ c, p.Name ≠ n) ∧
    ((∀ p ∈ c, p.Name ≠ n) → getProjectInCatalog c n
        = (Project.zero, some ("No project " ++ n ++ " found in the catalog"))) ∧
    ((∃ p ∈ c, p.Name = n) → ∃ pre p post, c = pre ++ p :: post ∧ p.Name = n ∧
        (∀ q ∈ pre, q.Name ≠ n) ∧ getProjectInCatalog c n = (p, none)) ∧
    (∀ pre p post, c = pre ++ p :: post → p.Name = n → (∀ q ∈ pre, q.Name ≠ n) →
        getProjectInCatalog c n = (p, none)) := by
  have hfound : (∃ p ∈ c, p.Name = n) → ∃ pre p post, c = pre ++ p :: post ∧ p.Name = n ∧
      (∀ q ∈ pre, q.Name ≠ n) ∧ getProjectInCatalog c n = (p, none) := by
    intro h
    obtain ⟨pre, p, post, hc, hp, hpre⟩ := exists_first_named c n h
    exact ⟨pre, p, post, hc, hp, hpre, hc ▸ getProjectInCatalog_first pre p post n hp hpre⟩
  refine ⟨⟨?_, ?_⟩, getProjectInCatalog_absent c n, hfound, ?_⟩
  · rintro ⟨err, herr⟩ p hp hn
    obtain ⟨_, _, _, _, _, _, hres⟩ := hfound ⟨p, hp, hn⟩
    rw [hres] at herr
    exact Option.noConfusion herr
  · intro h
    exact ⟨_, by rw [getProjectInCatalog_absent c n h]⟩
  · intro pre p post hc hp hpre
    exact hc ▸ getProjectInCatalog_first pre p post n hp hpre

/-- C6 on a catalog that holds "platform-ui" once and "doc-style" twice: the
first "doc-style" entry is returned, the entry present once comes back
unchanged, and an absent name is an error. -/
theorem getProjectInCatalog_resolve_witness :
    getProjectInCatalog exampleCatalog "doc-style" = (docStyle, none) ∧
    getProjectInCatalog exampleCatalog "platform-ui" = (platformUi, none) ∧
    (∃ err, (getProjectInCatalog exampleCatalog "nope").2 = some err) :=
  ⟨(getProjectInCatalog_resolve exampleCatalog "doc-style").2.2.2 [platformUi] docStyle
      [{ docStyle with Labels := "second" }] rfl rfl (by decide),
   (getProjectInCatalog_resolve exampleCatalog "platform-ui").2.2.2 [] platformUi
      [docStyle, { docStyle with Labels := "second" }] rfl rfl (by decide),
   (getProjectInCatalog_resolve exampleCatalog "nope").1.2 (by decide)⟩

/-! ## Repository Materializer -/

theorem getRepository_mkdir_error (env : Env) (args : Args) (p : Project) (w : World)
    (fs1 : FileSystem) (err : GoError)
    (hm : env.mkdirAll w.fs (args.WorkDir ++ "/" ++ p.Organization) = (fs1, some err)) :
    getRepository env args p w
      = (Except.error err,
         { fs := fs1,
           trace := w.trace ++
             [Event.log Level.info
                [("gitUrl", gitUrl ++ ":" ++ p.Organization ++ "/" ++ p.Name),
                 ("directory", args.WorkDir ++ "/" ++ p.Organization ++ "/" ++ p.Name)]
                "Cloning project...",
              Event.mkdirAll (args.WorkDir ++ "/" ++ p.Organization)] }) := by
  simp [getRepository, World.emit, hm]

theorem getRepository_open_ok (env : Env) (args : Args) (p : Project) (w : World)
    (fs1 : FileSystem) (r : Repository)
    (hm : env.mkdirAll w.fs (args.WorkDir ++ "/" ++ p.Organization) = (fs1, none))
    (ho : env.plainOpen fs1 (args.WorkDir ++ "/" ++ p.Organization ++ "/" ++ p.Name)
      = Except.ok r) :
    getRepository env args p w
      = (Except.ok r,
         { fs := fs1,
           trace := w.trace ++
             [Event.log Level.info
                [("gitUrl", gitUrl ++ ":" ++ p.Organization ++ "/" ++ p.Name),
                 ("directory", args.WorkDir ++ "/" ++ p.Organization ++ "/" ++ p.Name)]
                "Cloning project...",
              Event.mkdirAll (args.WorkDir ++ "/" ++ p.Organization),
              Event.log Level.info []
                ("Opening repository on " ++
                  (args.WorkDir ++ "/" ++ p.Organization ++ "/" ++ p.Name)),
              Event.plainOpen (args.WorkDir ++ "/" ++ p.Organization ++ "/" ++ p.Name)] }) := by
  simp [getRepository, World.emit, hm, ho]

theorem getRepository_open_error (env : Env) (args : Args) (p : Project) (w : World)
    (fs1 : FileSystem) (err : GoError)
    (hm : env.mkdirAll w.fs (args.WorkDir ++ "/" ++ p.Organization) = (fs1, none))
    (ho : env.plainOpen fs1 (args.WorkDir ++ "/" ++ p.Organization ++ "/" ++ p.Name)
      = Except.error err) :
    getRepository env args p w
      = ((env.plainClone
            (osRemove fs1 (args.WorkDir ++ "/" ++ p.Organization ++ "/" ++ p.Name)).1
            (args.WorkDir ++ "/" ++ p.Organization ++ "/" ++ p.Name) false
            { URL := gitUrl ++ ":" ++ p.Organization ++ "/" ++ p.Name,
              RecurseSubmodules := DefaultSubmoduleRecursionDepth, ProgressStdout := true }).2,
         { fs := (env.plainClone
            (osRemove fs1 (args.WorkDir ++ "/" ++ p.Organization ++ "/" ++ p.Name)).1
            (args.WorkDir ++ "/" ++ p.Organization ++ "/" ++ p.Name) false
            { URL := gitUrl ++ ":" ++ p.Organization ++ "/" ++ p.Name,
              RecurseSubmodules := DefaultSubmoduleRecursionDepth, ProgressStdout := true }).1,
           trace := w.trace ++
             [Event.log Level.info
                [("gitUrl", gitUrl ++ ":" ++ p.Organization ++ "/" ++ p.Name),
                 ("directory", args.WorkDir ++ "/" ++ p.Organization ++ "/" ++ p.Name)]
                "Cloning project...",
              Event.mkdirAll (args.WorkDir ++ "/" ++ p.Organization),
              Event.log Level.info []
                ("Opening repository on " ++
                  (args.WorkDir ++ "/" ++ p.Organization ++ "/" ++ p.Name)),
              Event.plainOpen (args.WorkDir ++ "/" ++ p.Organization ++ "/" ++ p.Name),
              Event.log Level.info [("error", err)]
                ("Error open " ++ (args.WorkDir ++ "/" ++ p.Organization ++ "/" ++ p.Name)
                  ++ ", Try to clean and clone it"),
              Event.remove (args.WorkDir ++ "/" ++ p.Organization ++ "/" ++ p.Name),
              Event.plainClone (args.WorkDir ++ "/" ++ p.Organization ++ "/" ++ p.Name) false
                { URL := gitUrl ++ ":" ++ p.Organization ++ "/" ++ p.Name,
                  RecurseSubmodules := DefaultSubmoduleRecursionDepth,
                  ProgressStdout := true }] }) := by
  simp only [getRepository, World.emit, hm, ho]
  split <;> rename_i h <;> simp [h]

theorem osRemove_vacant (fs : FileSystem) (path : String)
    (h : fs.hasEntriesBelow path = false) : (osRemove fs path).1.vacant path = true := by
  have hbelow : ∀ e ∈ fs, isBelow path e.1 = false := by
    intro e he
    have := List.any_eq_false.mp h e he
    simpa using this
  unfold osRemove FileSystem.node
  rcases hl : fs.lookup path with _ | nd
  · simp only [FileSystem.vacant, List.all_eq_true]
    intro e he
    have hne := List.lookup_eq_none_iff.mp hl e he
    have hne2 : e.1 ≠ path := fun heq => by simp [heq] at hne
    simp [hne2, hbelow e he]
  · have hfilter : FileSystem.vacant (fs.filter fun e => e.1 != path) path = true := by
      simp only [FileSystem.vacant, List.all_eq_true]
      intro e he
      obtain ⟨hmem, hne⟩ := List.mem_filter.mp he
      simp only [bne_iff_ne, ne_eq] at hne
      simp [hne, hbelow e hmem]
    cases nd with
    | file => exact hfilter
    | dir => simp only [h, Bool.false_eq_true, if_false]; exact hfilter

theorem osRemove_nonempty_dir (fs : FileSystem) (path : String)
    (hd : fs.node path = some Node.dir) (h : fs.hasEntriesBelow path = true) :
    osRemove fs path = (fs, some ("remove " ++ path ++ ": directory not empty")) := by
  simp [osRemove, hd, h]

/-- What `getRepository` does when the local path does not open as a repository:
one `os.Remove` of the path, then one clone into it, run on the filesystem the
removal left. When nothing lies below the path (it holds a file, an empty
directory or nothing), the path is free when the clone starts; when it is a
directory with entries below it, the removal changes nothing. -/
theorem getRepository_reclone (env : Env) (args : Args) (p : Project) (w : World)
    (fs1 : FileSystem) (err : GoError)
    (hm : env.mkdirAll w.fs (args.WorkDir ++ "/" ++ p.Organization) = (fs1, none))
    (ho : env.plainOpen fs1 (args.WorkDir ++ "/" ++ p.Organization ++ "/" ++ p.Name)
      = Except.error err) :
    removeCalls (getRepository env args p w).2.trace
      = removeCalls w.trace ++ [args.WorkDir ++ "/" ++ p.Organization ++ "/" ++ p.Name] ∧
    cloneCalls (getRepository env args p w).2.trace
      = cloneCalls w.trace ++
          [(args.WorkDir ++ "/" ++ p.Organization ++ "/" ++ p.Name, false,
            { URL := "git@github.com:" ++ p.Organization ++ "/" ++ p.Name,
              RecurseSubmodules := 10, ProgressStdout := true })] ∧
    (getRepository env args p w).2.fs
      = (env.plainClone
          (osRemove fs1 (args.WorkDir ++ "/" ++ p.Organization ++ "/" ++ p.Name)).1
          (args.WorkDir ++ "/" ++ p.Organization ++ "/" ++ p.Name) false
          { URL := "git@github.com:" ++ p.Organization ++ "/" ++ p.Name,
            RecurseSubmodules := 10, ProgressStdout := true }).1 ∧
    (fs1.hasEntriesBelow (args.WorkDir ++ "/" ++ p.Organization ++ "/" ++ p.Name) = false →
      (osRemove fs1 (args.WorkDir ++ "/" ++ p.Organization ++ "/" ++ p.Name)).1.vacant
        (args.WorkDir ++ "/" ++ p.Organization ++ "/" ++ p.Name) = true) ∧
    (fs1.node (args.WorkDir ++ "/" ++ p.Organization ++ "/" ++ p.Name) = some Node.dir →
      fs1.hasEntriesBelow (args.WorkDir ++ "/" ++ p.Organization ++ "/" ++ p.Name) = true →
      (osRemove fs1 (args.WorkDir ++ "/" ++ p.Organization ++ "/" ++ p.Name)).1 = fs1) := by
  have hurl : gitUrl ++ ":" = "git@github.com:" := by decide
  rw [getRepository_open_error env args p w fs1 err hm ho]
  refine ⟨by simp [removeCalls], by simp [cloneCalls, hurl, DefaultSubmoduleRecursionDepth],
    by simp [hurl, DefaultSubmoduleRecursionDepth], osRemove_vacant fs1 _, ?_⟩
  intro hd hb
  rw [osRemove_nonempty_dir fs1 _ hd hb]

/-- The reclone on a work directory in which work/acme/doc-style is a plain file:
the file is removed, the path is free for the clone, and there is one clone. -/
theorem getRepository_reclone_witness :
    removeCalls (getRepository exampleEnv exampleArgs docStyle
        { fs := [("work", Node.dir), ("work/acme", Node.dir), ("work/acme/doc-style", Node.file)],
          trace := [] }).2.trace = ["work/acme/doc-style"] ∧
    cloneCalls (getRepository exampleEnv exampleArgs docStyle
        { fs := [("work", Node.dir), ("work/acme", Node.dir), ("work/acme/doc-style", Node.file)],
          trace := [] }).2.trace
      = [("work/acme/doc-style", false,
          { URL := "git@github.com:acme/doc-style", RecurseSubmodules := 10,
            ProgressStdout := true })] ∧
    (osRemove [("work", Node.dir), ("work/acme", Node.dir), ("work/acme/doc-style", Node.file)]
        "work/acme/doc-style").1.vacant "work/acme/doc-style" = true :=
  have h := getRepository_reclone exampleEnv exampleArgs docStyle
    { fs := [("work", Node.dir), ("work/acme", Node.dir), ("work/acme/doc-style", Node.file)],
      trace := [] }
    [("work", Node.dir), ("work/acme", Node.dir), ("work/acme/doc-style", Node.file)]
    "repository does not exist" (by decide) (by decide)
  ⟨h.1, h.2.1, h.2.2.2.1 (by decide)⟩

/-- C7: when creating the parent directory succeeds and the local path opens as
a repository, `getRepository` returns the opened repository with a nil error,
the filesystem is the one `MkdirAll` left, and the run has made no clone call
and no removal. -/
theorem getRepository_reuses_valid_clone (env : Env) (args : Args) (p : Project) (w : World)
    (fs1 : FileSystem) (r : Repository)
    (hm : env.mkdirAll w.fs (args.WorkDir ++ "/" ++ p.Organization) = (fs1, none))
    (ho : env.plainOpen fs1 (args.WorkDir ++ "/" ++ p.Organization ++ "/" ++ p.Name)
      = Except.ok r) :
    (getRepository env args p w).1 = Except.ok r ∧
    (getRepository env args p w).2.fs = fs1 ∧
    cloneCalls (getRepository env args p w).2.trace = cloneCalls w.trace ∧
    removeCalls (getRepository env args p w).2.trace = removeCalls w.trace := by
  rw [getRepository_open_ok env args p w fs1 r hm ho]
  simp [cloneCalls, removeCalls]

/-- C7 on a work directory that holds a valid clone of doc-style. -/
theorem getRepository_reuses_valid_clone_witness :
    (getRepository exampleEnv exampleArgs docStyle { fs := clonedFs, trace := [] }).1
      = Except.ok { handle := 1 } ∧
    (getRepository exampleEnv exampleArgs docStyle { fs := clonedFs, trace := [] }).2.fs
      = clonedFs ∧
    cloneCalls (getRepository exampleEnv exampleArgs docStyle
      { fs := clonedFs, trace := [] }).2.trace = [] ∧
    removeCalls (getRepository exampleEnv exampleArgs docStyle
      { fs := clonedFs, trace := [] }).2.trace = [] :=
  getRepository_reuses_valid_clone exampleEnv exampleArgs docStyle { fs := clonedFs, trace := [] }
    clonedFs { handle := 1 } (by decide) (by decide)

/-- C9: `getRepository` opens exactly the path `WorkDir/Organization/Name` (once,
when the parent directory could be made), and on open failure clones exactly
once, into that same path, from the URL `git@github.com:Organization/Name`.
Path and URL depend on the work directory, the organization and the name only:
two projects that agree on organization and name are materialized alike. -/
theorem getRepository_addressing (env : Env) (args : Args) (p : Project) (w : World) :
    openCalls (getRepository env args p w).2.trace
      = openCalls w.trace ++
          (match env.mkdirAll w.fs (args.WorkDir ++ "/" ++ p.Organization) with
           | (_, some _) => []
           | (_, none) => [args.WorkDir ++ "/" ++ p.Organization ++ "/" ++ p.Name]) ∧
    cloneCalls (getRepository env args p w).2.trace
      = cloneCalls w.trace ++
          (match env.mkdirAll w.fs (args.WorkDir ++ "/" ++ p.Organization) with
           | (_, some _) => []
           | (fs1, none) =>
             match env.plainOpen fs1 (args.WorkDir ++ "/" ++ p.Organization ++ "/" ++ p.Name) with
             | Except.ok _ => []
             | Except.error _ =>
               [(args.WorkDir ++ "/" ++ p.Organization ++ "/" ++ p.Name, false,
                 { URL := "git@github.com:" ++ p.Organization ++ "/" ++ p.Name,
                   RecurseSubmodules := 10, ProgressStdout := true })]) ∧
    (∀ q : Project, q.Organization = p.Organization → q.Name = p.Name →
      getRepository env args q w = getRepository env args p w) := by
  have hurl : gitUrl ++ ":" = "git@github.com:" := by decide
  refine ⟨?_, ?_, ?_⟩
  · rcases hm : env.mkdirAll w.fs (args.WorkDir ++ "/" ++ p.Organization) with ⟨fs1, _ | err⟩
    · rcases ho : env.plainOpen fs1 (args.WorkDir ++ "/" ++ p.Organization ++ "/" ++ p.Name)
        with err | r
      · rw [getRepository_open_error env args p w fs1 err hm ho]
        simp [openCalls]
      · rw [getRepository_open_ok env args p w fs1 r hm ho]
        simp [openCalls]
    · rw [getRepository_mkdir_error env args p w fs1 err hm]
      simp [openCalls]
  · rcases hm : env.mkdirAll w.fs (args.WorkDir ++ "/" ++ p.Organization) with ⟨fs1, _ | err⟩
    · rcases ho : env.plainOpen fs1 (args.WorkDir ++ "/" ++ p.Organization ++ "/" ++ p.Name)
        with err | r
      · rw [getRepository_open_error env args p w fs1 err hm ho]
        simp [cloneCalls, hurl, DefaultSubmoduleRecursionDepth, ho]
      · rw [getRepository_open_ok env args p w fs1 r hm ho]
        simp [cloneCalls, ho]
    · rw [getRepository_mkdir_error env args p w fs1 err hm]
      simp [cloneCalls]
  · intro q hq hn
    simp only [getRepository, hq, hn]

/-- C9 on a work directory without the clone: one open and one clone, both at
work/acme/doc-style, the clone from git@github.com:acme/doc-style; and a project
that differs from doc-style in labels and release only is materialized alike. -/
theorem getRepository_addressing_witness :
    openCalls (getRepository exampleEnv exampleArgs docStyle { fs := [], trace := [] }).2.trace
      = ["work/acme/doc-style"] ∧
    cloneCalls (getRepository exampleEnv exampleArgs docStyle { fs := [], trace := [] }).2.trace
      = [("work/acme/doc-style", false,
          { URL := "git@github.com:acme/doc-style", RecurseSubmodules := 10,
            ProgressStdout := true })] ∧
    getRepository exampleEnv exampleArgs
        { docStyle with Labels := "second", Release := platformUi.Release }
        { fs := [], trace := [] }
      = getRepository exampleEnv exampleArgs docStyle { fs := [], trace := [] } :=
  ⟨(getRepository_addressing exampleEnv exampleArgs docStyle { fs := [], trace := [] }).1,
   (getRepository_addressing exampleEnv exampleArgs docStyle { fs := [], trace := [] }).2.1,
   (getRepository_addressing exampleEnv exampleArgs docStyle { fs := [], trace := [] }).2.2
     { docStyle with Labels := "second", Release := platformUi.Release } rfl rfl⟩

/-- C1 fails on a non-empty directory. In `brokenFs` the path work/acme/doc-style
is a directory that holds a file and is no repository: `os.Remove` refuses it
and leaves the filesystem as it is, so the path is still occupied when the
clone starts; whatever the environment does, the clone is called on that
unchanged filesystem. In the example environment the file is still there after
the run. -/
theorem getRepository_keeps_nonempty_directory :
    brokenFs.node "work/acme/doc-style" = some Node.dir ∧
    brokenFs.node "work/acme/doc-style/junk" = some Node.file ∧
    osRemove brokenFs "work/acme/doc-style"
      = (brokenFs, some "remove work/acme/doc-style: directory not empty") ∧
    (osRemove brokenFs "work/acme/doc-style").1.vacant "work/acme/doc-style" = false ∧
    (∀ (env : Env) (tr : List Event) (err : GoError),
      env.mkdirAll brokenFs "work/acme" = (brokenFs, none) →
      env.plainOpen brokenFs "work/acme/doc-style" = Except.error err →
      (getRepository env exampleArgs docStyle { fs := brokenFs, trace := tr }).2.fs
        = (env.plainClone brokenFs "work/acme/doc-style" false
            { URL := "git@github.com:acme/doc-style", RecurseSubmodules := 10,
              ProgressStdout := true }).1 ∧
      removeCalls (getRepository env exampleArgs docStyle { fs := brokenFs, trace := tr }).2.trace
        = removeCalls tr ++ ["work/acme/doc-style"] ∧
      cloneCalls (getRepository env exampleArgs docStyle { fs := brokenFs, trace := tr }).2.trace
        = cloneCalls tr ++ [("work/acme/doc-style", false,
            { URL := "git@github.com:acme/doc-style", RecurseSubmodules := 10,
              ProgressStdout := true })]) ∧
    (getRepository exampleEnv exampleArgs docStyle { fs := brokenFs, trace := [] }).1
      = Except.ok { handle := 2 } ∧
    (getRepository exampleEnv exampleArgs docStyle { fs := brokenFs, trace := [] }).2.fs.node
      "work/acme/doc-style/junk" = some Node.file := by
  refine ⟨by decide, by decide, by decide, by decide, ?_, by decide, by decide⟩
  intro env tr err hm ho
  have hrem : osRemove brokenFs "work/acme/doc-style" = (brokenFs, some
      "remove work/acme/doc-style: directory not empty") := by decide
  have h := getRepository_open_error env exampleArgs docStyle { fs := brokenFs, trace := tr }
    brokenFs err hm ho
  have hdir : exampleArgs.WorkDir ++ "/" ++ docStyle.Organization ++ "/" ++ docStyle.Name
      = "work/acme/doc-style" := by decide
  have hurl : gitUrl ++ ":" ++ docStyle.Organization ++ "/" ++ docStyle.Name
      = "git@github.com:acme/doc-style" := by decide
  rw [hdir, hurl, hrem] at h
  rw [h]
  simp [removeCalls, cloneCalls, DefaultSubmoduleRecursionDepth]

/-! ## Branch Provisioner -/

theorem checkoutAndResetBranch_worktree_error (env : Env) (r : Repository) (b : String)
    (w : World) (err : GoError) (h : env.worktree w.fs r = Except.error err) :
    checkoutAndResetBranch env r b w
      = (Outcome.exited 1,
         { fs := w.fs,
           trace := w.trace ++
             [Event.log Level.info [] ("checkout and reset " ++ b), Event.worktree r,
              Event.log Level.fatal [] err] }) := by
  simp [checkoutAndResetBranch, World.emit, logFatal, h]

theorem checkoutAndResetBranch_checkout_error (env : Env) (r : Repository) (b : String)
    (w : World) (wt : Worktree) (fs1 : FileSystem) (err : GoError)
    (h : env.worktree w.fs r = Except.ok wt)
    (hc : env.checkout w.fs wt { Branch := "ref/heads/" ++ b, Force := true } = (fs1, some err)) :
    checkoutAndResetBranch env r b w
      = (Outcome.exited 1,
         { fs := fs1,
           trace := w.trace ++
             [Event.log Level.info [] ("checkout and reset " ++ b), Event.worktree r,
              Event.checkout wt { Branch := "ref/heads/" ++ b, Force := true },
              Event.log Level.fatal [] err] }) := by
  simp [checkoutAndResetBranch, World.emit, logFatal, h, hc]

theorem checkoutAndResetBranch_checkout_ok (env : Env) (r : Repository) (b : String)
    (w : World) (wt : Worktree) (fs1 : FileSystem)
    (h : env.worktree w.fs r = Except.ok wt)
    (hc : env.checkout w.fs wt { Branch := "ref/heads/" ++ b, Force := true } = (fs1, none)) :
    checkoutAndResetBranch env r b w
      = (Outcome.returned (),
         { fs := fs1,
           trace := w.trace ++
             [Event.log Level.info [] ("checkout and reset " ++ b), Event.worktree r,
              Event.checkout wt { Branch := "ref/heads/" ++ b, Force := true }] }) := by
  simp [checkoutAndResetBranch, World.emit, h, hc]

theorem checkoutAndResetBranch_checkoutCalls (env : Env) (r : Repository) (b : String)
    (w : World) :
    checkoutCalls (checkoutAndResetBranch env r b w).2.trace
      = checkoutCalls w.trace ++
          (match env.worktree w.fs r with
           | Except.error _ => []
           | Except.ok _ => [{ Branch := "ref/heads/" ++ b, Force := true }]) := by
  rcases h : env.worktree w.fs r with err | wt
  · rw [checkoutAndResetBranch_worktree_error env r b w err h]
    simp [checkoutCalls]
  · rcases hc : env.checkout w.fs wt { Branch := "ref/heads/" ++ b, Force := true }
      with ⟨fs1, _ | err⟩
    · rw [checkoutAndResetBranch_checkout_ok env r b w wt fs1 h hc]
      simp [checkoutCalls]
    · rw [checkoutAndResetBranch_checkout_error env r b w wt fs1 err h hc]
      simp [checkoutCalls]

theorem ref_heads_ne_refs_heads (b : String) : "ref/heads/" ++ b ≠ "refs/heads/" ++ b := by
  intro h
  have hd := congrArg String.data h
  simp only [String.data_append] at hd
  have h4 := congrArg (fun l => l.get? 3) hd
  simp at h4

/-- C2 fails on the reference name. When the working tree can be obtained,
`checkoutAndResetBranch` issues exactly one checkout request, with `Force` set,
but its target is "ref/heads/" followed by the branch name, which is never the
local branch reference "refs/heads/" followed by the branch name. -/
theorem checkoutAndResetBranch_target (env : Env) (r : Repository) (b : String) (w : World)
    (wt : Worktree) (h : env.worktree w.fs r = Except.ok wt) :
    checkoutCalls (checkoutAndResetBranch env r b w).2.trace
      = checkoutCalls w.trace ++ [{ Branch := "ref/heads/" ++ b, Force := true }] ∧
    "ref/heads/" ++ b ≠ "refs/heads/" ++ b := by
  refine ⟨?_, ref_heads_ne_refs_heads b⟩
  rw [checkoutAndResetBranch_checkoutCalls, h]

/-- C2 on the branch "main": the one request asks for "ref/heads/main", and in
an environment whose only reference is "refs/heads/main" the run ends in
`log.Fatal`. -/
theorem checkoutAndResetBranch_target_witness :
    (checkoutCalls (checkoutAndResetBranch exampleEnv { handle := 1 } "main"
        { fs := clonedFs, trace := [] }).2.trace
      = [{ Branch := "ref/heads/main", Force := true }] ∧
     "ref/heads/" ++ "main" ≠ "refs/heads/" ++ "main") ∧
    checkoutAndResetBranch exampleEnv { handle := 1 } "main" { fs := clonedFs, trace := [] }
      = (Outcome.exited 1,
         { fs := clonedFs,
           trace := [Event.log Level.info [] "checkout and reset main",
                     Event.worktree { handle := 1 },
                     Event.checkout { handle := 1 } { Branch := "ref/heads/main", Force := true },
                     Event.log Level.fatal [] "reference not found"] }) :=
  ⟨checkoutAndResetBranch_target exampleEnv { handle := 1 } "main"
      { fs := clonedFs, trace := [] } { handle := 1 } rfl,
   by decide⟩

/-! ## createStableBranch -/

theorem createStableBranch_of_repository (env : Env) (args : Args) (p : Project) (w w1 : World)
    (r : Repository) (h : getRepository env args p w = (Except.ok r, w1)) :
    createStableBranch env args p w
      = (match checkoutAndResetBranch env r p.Release.Branch
            (w1.emit (Event.log Level.info
              [("project", p.Name), ("originBranch", p.Release.Branch),
               ("stableBranch", stableBranchName p.Release.CurrentSnapshot)]
              "Creating stable branch")) with
         | (Outcome.exited c, w2) => (Outcome.exited c, w2)
         | (Outcome.returned _, w2) => (Outcome.returned none, w2)) := by
  simp only [createStableBranch, h, stableBranchName]

theorem createStableBranch_of_error (env : Env) (args : Args) (p : Project) (w w1 : World)
    (err : GoError) (h : getRepository env args p w = (Except.error err, w1)) :
    createStableBranch env args p w = (Outcome.returned (some err), w1) := by
  simp only [createStableBranch, h]

theorem string_append_left_cancel (a b c : String) (h : a ++ b = a ++ c) : b = c := by
  have hd := congrArg String.data h
  simp only [String.data_append] at hd
  exact String.ext (List.append_cancel_left hd)

theorem checkoutAndResetBranch_trace_shape (env : Env) (r : Repository) (b : String)
    (w : World) :
    ∃ tail, (checkoutAndResetBranch env r b w).2.trace
        = w.trace ++ [Event.log Level.info [] ("checkout and reset " ++ b), Event.worktree r]
            ++ tail ∧
      ((∃ err, tail = [Event.log Level.fatal [] err]) ∨
       (∃ wt o, tail = [Event.checkout wt o]) ∨
       (∃ wt o err, tail = [Event.checkout wt o, Event.log Level.fatal [] err])) := by
  rcases h : env.worktree w.fs r with err | wt
  · rw [checkoutAndResetBranch_worktree_error env r b w err h]
    exact ⟨[Event.log Level.fatal [] err], by simp, Or.inl ⟨err, rfl⟩⟩
  · rcases hc : env.checkout w.fs wt { Branch := "ref/heads/" ++ b, Force := true }
      with ⟨fs1, _ | err⟩
    · rw [checkoutAndResetBranch_checkout_ok env r b w wt fs1 h hc]
      exact ⟨[Event.checkout wt { Branch := "ref/heads/" ++ b, Force := true }], by simp,
        Or.inr (Or.inl ⟨wt, _, rfl⟩)⟩
    · rw [checkoutAndResetBranch_checkout_error env r b w wt fs1 err h hc]
      exact ⟨[Event.checkout wt { Branch := "ref/heads/" ++ b, Force := true },
        Event.log Level.fatal [] err], by simp, Or.inr (Or.inr ⟨wt, _, err, rfl⟩)⟩

/-- C3 as stated fails where the origin branch is itself named as the stable
branch: for release {branch: "stable/2.1.0", current_snapshot_version:
"2.1.0-SNAPSHOT"} materialization succeeds, the computed name is "stable/2.1.0",
and the one checkout-and-reset call is made with that very name. -/
theorem createStableBranch_can_check_out_stable_name :
    (getRepository exampleEnv exampleArgs stableOrigin { fs := clonedFs, trace := [] }).1
      = Except.ok { handle := 1 } ∧
    stableBranchName stableOrigin.Release.CurrentSnapshot = "stable/2.1.0" ∧
    ¬ stableOrigin.Release.Branch ≠ stableBranchName stableOrigin.Release.CurrentSnapshot ∧
    Event.log Level.info []
        ("checkout and reset " ++ stableBranchName stableOrigin.Release.CurrentSnapshot)
      ∈ (createStableBranch exampleEnv exampleArgs stableOrigin
          { fs := clonedFs, trace := [] }).2.trace ∧
    createStableBranch exampleEnv exampleArgs stableOrigin { fs := clonedFs, trace := [] }
      = (match checkoutAndResetBranch exampleEnv { handle := 1 }
            (stableBranchName stableOrigin.Release.CurrentSnapshot)
            ((getRepository exampleEnv exampleArgs stableOrigin
                { fs := clonedFs, trace := [] }).2.emit
              (Event.log Level.info
                [("project", "doc-style"), ("originBranch", "stable/2.1.0"),
                 ("stableBranch", "stable/2.1.0")] "Creating stable branch")) with
         | (Outcome.exited c, w2) => (Outcome.exited c, w2)
         | (Outcome.returned _, w2) => (Outcome.returned none, w2)) := by
  decide

/-- C3, amended: when materialization succeeds, `createStableBranch` logs the
computed stable name and then calls `checkoutAndResetBranch` once, on the
repository it got and with the branch `p.Release.Branch`. What the run adds to
the trace is the "Creating stable branch" entry, one "checkout and reset" entry
that names `p.Release.Branch`, one `Worktree` call, and after these at most one
checkout request and at most one fatal entry. When `p.Release.Branch` differs
from the computed stable name, the run adds no "checkout and reset" entry for
the stable name. -/
theorem createStableBranch_checks_out_origin (env : Env) (args : Args) (p : Project)
    (w w1 : World) (r : Repository) (h : getRepository env args p w = (Except.ok r, w1)) :
    createStableBranch env args p w
      = (match checkoutAndResetBranch env r p.Release.Branch
            (w1.emit (Event.log Level.info
              [("project", p.Name), ("originBranch", p.Release.Branch),
               ("stableBranch", stableBranchName p.Release.CurrentSnapshot)]
              "Creating stable branch")) with
         | (Outcome.exited c, w2) => (Outcome.exited c, w2)
         | (Outcome.returned _, w2) => (Outcome.returned none, w2)) ∧
    (∃ tail, (createStableBranch env args p w).2.trace
        = w1.trace ++
            [Event.log Level.info
               [("project", p.Name), ("originBranch", p.Release.Branch),
                ("stableBranch", stableBranchName p.Release.CurrentSnapshot)]
               "Creating stable branch",
             Event.log Level.info [] ("checkout and reset " ++ p.Release.Branch),
             Event.worktree r] ++ tail ∧
      ((∃ err, tail = [Event.log Level.fatal [] err]) ∨
       (∃ wt o, tail = [Event.checkout wt o]) ∨
       (∃ wt o err, tail = [Event.checkout wt o, Event.log Level.fatal [] err]))) ∧
    checkoutCalls (createStableBranch env args p w).2.trace
      = checkoutCalls (checkoutAndResetBranch env r p.Release.Branch w1).2.trace ∧
    (p.Release.Branch ≠ stableBranchName p.Release.CurrentSnapshot →
      Event.log Level.info []
          ("checkout and reset " ++ stableBranchName p.Release.CurrentSnapshot)
        ∈ (createStableBranch env args p w).2.trace →
      Event.log Level.info []
          ("checkout and reset " ++ stableBranchName p.Release.CurrentSnapshot)
        ∈ w1.trace) := by
  have htrace : (createStableBranch env args p w).2.trace
      = (checkoutAndResetBranch env r p.Release.Branch
          (w1.emit (Event.log Level.info
            [("project", p.Name), ("originBranch", p.Release.Branch),
             ("stableBranch", stableBranchName p.Release.CurrentSnapshot)]
            "Creating stable branch"))).2.trace := by
    rw [createStableBranch_of_repository env args p w w1 r h]
    split <;> rename_i h2 <;> rw [h2]
  obtain ⟨tail, ht, hshape⟩ := checkoutAndResetBranch_trace_shape env r p.Release.Branch
    (w1.emit (Event.log Level.info
      [("project", p.Name), ("originBranch", p.Release.Branch),
       ("stableBranch", stableBranchName p.Release.CurrentSnapshot)]
      "Creating stable branch"))
  have hfull : (createStableBranch env args p w).2.trace
      = w1.trace ++
          [Event.log Level.info
             [("project", p.Name), ("originBranch", p.Release.Branch),
              ("stableBranch", stableBranchName p.Release.CurrentSnapshot)]
             "Creating stable branch",
           Event.log Level.info [] ("checkout and reset " ++ p.Release.Branch),
           Event.worktree r] ++ tail := by
    rw [htrace, ht, World.emit_trace]
    simp
  refine ⟨createStableBranch_of_repository env args p w w1 r h, ⟨tail, hfull, hshape⟩, ?_, ?_⟩
  · rw [htrace, checkoutAndResetBranch_checkoutCalls, checkoutAndResetBranch_checkoutCalls,
      World.emit_fs, World.emit_trace]
    simp [checkoutCalls]
  · intro hne hmem
    rw [hfull] at hmem
    rcases List.mem_append.mp hmem with hm | hm
    · rcases List.mem_append.mp hm with hm1 | hm2
      · exact hm1
      · exfalso
        rcases List.mem_cons.mp hm2 with e1 | hm3
        · have hf := (Event.log.inj e1).2.1
          exact absurd hf (by simp)
        · rcases List.mem_cons.mp hm3 with e2 | hm4
          · have hmsg := (Event.log.inj e2).2.2
            exact hne (string_append_left_cancel _ _ _ hmsg).symm
          · have e3 := List.mem_singleton.mp hm4
            exact Event.noConfusion e3
    · exfalso
      rcases hshape with ⟨err, rfl⟩ | ⟨wt, o, rfl⟩ | ⟨wt, o, err, rfl⟩
      · simp at hm
      · simp at hm
      · simp at hm

/-- C3, amended, on release {branch: "main", current_snapshot_version:
"2.1.0-SNAPSHOT"}: the name logged is "stable/2.1.0", the one call of
`checkoutAndResetBranch` is made with "main", and the run has no "checkout and
reset" entry for "stable/2.1.0". -/
theorem createStableBranch_checks_out_origin_witness :
    stableBranchName docStyle.Release.CurrentSnapshot = "stable/2.1.0" ∧
    createStableBranch exampleEnv exampleArgs docStyle { fs := clonedFs, trace := [] }
      = (match checkoutAndResetBranch exampleEnv { handle := 1 } "main"
            ((getRepository exampleEnv exampleArgs docStyle
                { fs := clonedFs, trace := [] }).2.emit
              (Event.log Level.info
                [("project", "doc-style"), ("originBranch", "main"),
                 ("stableBranch", "stable/2.1.0")] "Creating stable branch")) with
         | (Outcome.exited c, w2) => (Outcome.exited c, w2)
         | (Outcome.returned _, w2) => (Outcome.returned none, w2)) ∧
    Event.log Level.info [] "checkout and reset stable/2.1.0"
      ∉ (createStableBranch exampleEnv exampleArgs docStyle
          { fs := clonedFs, trace := [] }).2.trace :=
  have h := createStableBranch_checks_out_origin exampleEnv exampleArgs docStyle
    { fs := clonedFs, trace := [] }
    (getRepository exampleEnv exampleArgs docStyle { fs := clonedFs, trace := [] }).2
    { handle := 1 } (by decide)
  ⟨by decide, h.1, fun hmem =>
    absurd (h.2.2.2 (by decide) hmem) (by decide)⟩

/-! ## Workflow Orchestrator -/

theorem getRepository_warnMessages (env : Env) (args : Args) (p : Project) (w : World) :
    warnMessages (getRepository env args p w).2.trace = warnMessages w.trace := by
  rcases hm : env.mkdirAll w.fs (args.WorkDir ++ "/" ++ p.Organization) with ⟨fs1, _ | err⟩
  · rcases ho : env.plainOpen fs1 (args.WorkDir ++ "/" ++ p.Organization ++ "/" ++ p.Name)
      with err | r
    · rw [getRepository_open_error env args p w fs1 err hm ho]
      simp [warnMessages]
    · rw [getRepository_open_ok env args p w fs1 r hm ho]
      simp [warnMessages]
  · rw [getRepository_mkdir_error env args p w fs1 err hm]
    simp [warnMessages]

theorem checkoutAndResetBranch_warnMessages (env : Env) (r : Repository) (b : String)
    (w : World) :
    warnMessages (checkoutAndResetBranch env r b w).2.trace = warnMessages w.trace := by
  rcases h : env.worktree w.fs r with err | wt
  · rw [checkoutAndResetBranch_worktree_error env r b w err h]
    simp [warnMessages]
  · rcases hc : env.checkout w.fs wt { Branch := "ref/heads/" ++ b, Force := true }
      with ⟨fs1, _ | err⟩
    · rw [checkoutAndResetBranch_checkout_ok env r b w wt fs1 h hc]
      simp [warnMessages]
    · rw [checkoutAndResetBranch_checkout_error env r b w wt fs1 err h hc]
      simp [warnMessages]

theorem createStableBranch_warnMessages (env : Env) (args : Args) (p : Project) (w : World) :
    warnMessages (createStableBranch env args p w).2.trace = warnMessages w.trace := by
  rcases h : getRepository env args p w with ⟨res, w1⟩
  have hw : warnMessages w1.trace = warnMessages w.trace := by
    have := getRepository_warnMessages env args p w
    rw [h] at this
    exact this
  cases res with
  | error err => rw [createStableBranch_of_error env args p w w1 err h, hw]
  | ok r =>
    rw [createStableBranch_of_repository env args p w w1 r h]
    have hc := checkoutAndResetBranch_warnMessages env r p.Release.Branch
      (w1.emit (Event.log Level.info
        [("project", p.Name), ("originBranch", p.Release.Branch),
         ("stableBranch", stableBranchName p.Release.CurrentSnapshot)]
        "Creating stable branch"))
    have he : warnMessages (w1.emit (Event.log Level.info
        [("project", p.Name), ("originBranch", p.Release.Branch),
         ("stableBranch", stableBranchName p.Release.CurrentSnapshot)]
        "Creating stable branch")).trace = warnMessages w1.trace := by
      simp [World.emit, warnMessages]
    rw [he, hw] at hc
    rw [← hc]
    split <;> rename_i h2 <;> rw [h2]

theorem processProject_of_absent (env : Env) (args : Args) (catalog : List Project)
    (n : String) (w : World) (cp : Project) (err : GoError)
    (h : getProjectInCatalog catalog n = (cp, some err)) :
    processProject env args catalog n w
      = (Outcome.exited 1,
         { fs := w.fs,
           trace := w.trace ++
             [Event.log Level.warn [] ("Creating stable branch for project " ++ n),
              Event.log Level.fatal [] err] }) := by
  simp [processProject, h, logFatal, World.emit]

theorem processProject_of_found (env : Env) (args : Args) (catalog : List Project)
    (n : String) (w : World) (cp : Project)
    (h : getProjectInCatalog catalog n = (cp, none)) :
    processProject env args catalog n w
      = (match createStableBranch env args cp
            ((w.emit (Event.log Level.warn [] ("Creating stable branch for project " ++ n))).emit
              (Event.log Level.info
                [("name", cp.Name), ("orga", cp.Organization),
                 ("current_version", cp.Release.CurrentSnapshot),
                 ("next_version", cp.Release.NextSnapshot)] "project found")) with
         | (Outcome.exited c, w2) => (Outcome.exited c, w2)
         | (Outcome.returned (some err), w2) => logFatal w2 err
         | (Outcome.returned none, w2) => (Outcome.returned (), w2)) := by
  simp only [processProject, h]

theorem processProject_warnMessages (env : Env) (args : Args) (catalog : List Project)
    (n : String) (w : World) :
    warnMessages (processProject env args catalog n w).2.trace
      = warnMessages w.trace ++ ["Creating stable branch for project " ++ n] := by
  rcases hg : getProjectInCatalog catalog n with ⟨cp, _ | err⟩
  · rw [processProject_of_found env args catalog n w cp hg]
    have hc := createStableBranch_warnMessages env args cp
      ((w.emit (Event.log Level.warn [] ("Creating stable branch for project " ++ n))).emit
        (Event.log Level.info
          [("name", cp.Name), ("orga", cp.Organization),
           ("current_version", cp.Release.CurrentSnapshot),
           ("next_version", cp.Release.NextSnapshot)] "project found"))
    have he : warnMessages
        ((w.emit (Event.log Level.warn [] ("Creating stable branch for project " ++ n))).emit
          (Event.log Level.info
            [("name", cp.Name), ("orga", cp.Organization),
             ("current_version", cp.Release.CurrentSnapshot),
             ("next_version", cp.Release.NextSnapshot)] "project found")).trace
        = warnMessages w.trace ++ ["Creating stable branch for project " ++ n] := by
      simp [World.emit, warnMessages]
    rw [he] at hc
    rw [← hc]
    split <;> rename_i h2 <;> rw [h2]
    simp [logFatal, World.emit, warnMessages]
  · rw [processProject_of_absent env args catalog n w cp err hg]
    simp [warnMessages]

theorem forProjects_append (env : Env) (args : Args) (catalog : List Project)
    (pre post : List String) (w : World) :
    forProjects env args catalog (pre ++ post) w
      = (match forProjects env args catalog pre w with
         | (Outcome.exited c, w1) => (Outcome.exited c, w1)
         | (Outcome.returned _, w1) => forProjects env args catalog post w1) := by
  induction pre generalizing w with
  | nil => simp [forProjects]
  | cons n pre ih =>
    simp only [List.cons_append, forProjects]
    rcases hp : processProject env args catalog n w with ⟨out, w1⟩
    cases out with
    | exited c => simp
    | returned u => simp [ih w1]

theorem forProjects_warnMessages (env : Env) (args : Args) (catalog : List Project)
    (names : List String) (w : World) :
    ∃ k, k ≤ names.length ∧ (names ≠ [] → 1 ≤ k) ∧
      warnMessages (forProjects env args catalog names w).2.trace
        = warnMessages w.trace ++
            (names.take k).map (fun n => "Creating stable branch for project " ++ n) ∧
      ((forProjects env args catalog names w).1 = Outcome.returned () → k = names.length) := by
  induction names generalizing w with
  | nil => exact ⟨0, by simp [forProjects]⟩
  | cons n names ih =>
    have hp := processProject_warnMessages env args catalog n w
    rcases hpp : processProject env args catalog n w with ⟨out, w1⟩
    rw [hpp] at hp
    cases out with
    | exited c =>
      refine ⟨1, by simp, by simp, ?_, ?_⟩
      · simp only [forProjects, hpp]
        simpa using hp
      · simp [forProjects, hpp]
    | returned u =>
      obtain ⟨k, hk, _, htr, hret⟩ := ih w1
      refine ⟨k + 1, by simpa using hk, by simp, ?_, ?_⟩
      · simp only [forProjects, hpp]
        rw [htr]
        simp only at hp
        rw [hp]
        simp
      · simp only [forProjects, hpp]
        intro h
        simp [hret h]

theorem processProject_returned (env : Env) (args : Args) (catalog : List Project)
    (n : String) (w w2 : World) (u : Unit)
    (h : processProject env args catalog n w = (Outcome.returned u, w2)) :
    ∃ cp r w1,
      getProjectInCatalog catalog n = (cp, none) ∧
      getRepository env args cp
          ((w.emit (Event.log Level.warn [] ("Creating stable branch for project " ++ n))).emit
            (Event.log Level.info
              [("name", cp.Name), ("orga", cp.Organization),
               ("current_version", cp.Release.CurrentSnapshot),
               ("next_version", cp.Release.NextSnapshot)] "project found"))
        = (Except.ok r, w1) ∧
      checkoutAndResetBranch env r cp.Release.Branch
          (w1.emit (Event.log Level.info
            [("project", cp.Name), ("originBranch", cp.Release.Branch),
             ("stableBranch", stableBranchName cp.Release.CurrentSnapshot)]
            "Creating stable branch"))
        = (Outcome.returned (), w2) := by
  rcases hg : getProjectInCatalog catalog n with ⟨cp, _ | err⟩
  · rw [processProject_of_found env args catalog n w cp hg] at h
    rcases hr : getRepository env args cp
        ((w.emit (Event.log Level.warn [] ("Creating stable branch for project " ++ n))).emit
          (Event.log Level.info
            [("name", cp.Name), ("orga", cp.Organization),
             ("current_version", cp.Release.CurrentSnapshot),
             ("next_version", cp.Release.NextSnapshot)] "project found")) with ⟨res, w1⟩
    cases res with
    | error err =>
      rw [createStableBranch_of_error env args cp _ w1 err hr] at h
      simp [logFatal] at h
    | ok r =>
      rw [createStableBranch_of_repository env args cp _ w1 r hr] at h
      rcases hc : checkoutAndResetBranch env r cp.Release.Branch
          (w1.emit (Event.log Level.info
            [("project", cp.Name), ("originBranch", cp.Release.Branch),
             ("stableBranch", stableBranchName cp.Release.CurrentSnapshot)]
            "Creating stable branch")) with ⟨out, w3⟩
      rw [hc] at h
      cases out with
      | exited c => simp at h
      | returned v =>
        simp only [Prod.mk.injEq, true_and] at h
        exact ⟨cp, r, w1, rfl, hr, by rw [hc, h]⟩
  · rw [processProject_of_absent env args catalog n w cp err hg] at h
    simp at h

theorem processProject_of_materialize_error (env : Env) (args : Args)
    (catalog : List Project) (n : String) (w w1 : World) (cp : Project) (err : GoError)
    (hg : getProjectInCatalog catalog n = (cp, none))
    (hr : getRepository env args cp
        ((w.emit (Event.log Level.warn [] ("Creating stable branch for project " ++ n))).emit
          (Event.log Level.info
            [("name", cp.Name), ("orga", cp.Organization),
             ("current_version", cp.Release.CurrentSnapshot),
             ("next_version", cp.Release.NextSnapshot)] "project found"))
      = (Except.error err, w1)) :
    processProject env args catalog n w
      = (Outcome.exited 1, w1.emit (Event.log Level.fatal [] err)) := by
  rw [processProject_of_found env args catalog n w cp hg,
    createStableBranch_of_error env args cp _ w1 err hr]
  rfl

theorem processProject_of_repository (env : Env) (args : Args)
    (catalog : List Project) (n : String) (w w1 : World) (cp : Project) (r : Repository)
    (hg : getProjectInCatalog catalog n = (cp, none))
    (hr : getRepository env args cp
        ((w.emit (Event.log Level.warn [] ("Creating stable branch for project " ++ n))).emit
          (Event.log Level.info
            [("name", cp.Name), ("orga", cp.Organization),
             ("current_version", cp.Release.CurrentSnapshot),
             ("next_version", cp.Release.NextSnapshot)] "project found"))
      = (Except.ok r, w1)) :
    processProject env args catalog n w
      = (match checkoutAndResetBranch env r cp.Release.Branch
            (w1.emit (Event.log Level.info
              [("project", cp.Name), ("originBranch", cp.Release.Branch),
               ("stableBranch", stableBranchName cp.Release.CurrentSnapshot)]
              "Creating stable branch")) with
         | (Outcome.exited c, w2) => (Outcome.exited c, w2)
         | (Outcome.returned _, w2) => (Outcome.returned (), w2)) := by
  rw [processProject_of_found env args catalog n w cp hg,
    createStableBranch_of_repository env args cp _ w1 r hr]
  rcases checkoutAndResetBranch env r cp.Release.Branch
      (w1.emit (Event.log Level.info
        [("project", cp.Name), ("originBranch", cp.Release.Branch),
         ("stableBranch", stableBranchName cp.Release.CurrentSnapshot)]
        "Creating stable branch")) with ⟨out, w2⟩
  cases out <;> rfl

/-- C5: the loop of `main` handles the names in list order and stops at the first
failure. The loop over no names returns at once and leaves the state as it is;
the loop over `n :: rest` runs the pass for `n` and, only if that pass returned,
goes on with `rest` from the state the pass left. So a run over `pre ++ post` is
the run over `pre` followed, only if that one returned, by the run over `post`;
and when the names before position i were handled and the pass at position i
ends in `log.Fatal`, the whole run ends there, in the very state of that exit,
whatever names follow. A pass announces the name at level warn and resolves it:
a name not in the catalog exits with code 1 after the fatal entry, with no call
made; a materialization error exits with code 1 in the state `getRepository`
left plus the fatal entry; otherwise the pass is the checkout of the
origin branch, exiting when it exits and returning in its state when it
returns. A pass returns only if all three steps succeeded. The names announced
by a run are a leading part of the list, in order: at least the first when
there is one, and the whole list when the run returns. -/
theorem forProjects_in_order_fail_fast (env : Env) (args : Args) (catalog : List Project) :
    (∀ w : World, forProjects env args catalog [] w = (Outcome.returned (), w)) ∧
    (∀ (n : String) (rest : List String) (w : World),
      forProjects env args catalog (n :: rest) w
        = (match processProject env args catalog n w with
           | (Outcome.exited c, w1) => (Outcome.exited c, w1)
           | (Outcome.returned _, w1) => forProjects env args catalog rest w1)) ∧
    (∀ (pre post : List String) (w : World),
      forProjects env args catalog (pre ++ post) w
        = (match forProjects env args catalog pre w with
           | (Outcome.exited c, w1) => (Outcome.exited c, w1)
           | (Outcome.returned _, w1) => forProjects env args catalog post w1)) ∧
    (∀ (pre : List String) (n : String) (post : List String) (w w1 w2 : World) (c : Nat),
      forProjects env args catalog pre w = (Outcome.returned (), w1) →
      processProject env args catalog n w1 = (Outcome.exited c, w2) →
      forProjects env args catalog (pre ++ n :: post) w = (Outcome.exited c, w2)) ∧
    (∀ (n : String) (w : World) (cp : Project) (err : GoError),
      getProjectInCatalog catalog n = (cp, some err) →
      processProject env args catalog n w
        = (Outcome.exited 1,
           { fs := w.fs,
             trace := w.trace ++
               [Event.log Level.warn [] ("Creating stable branch for project " ++ n),
                Event.log Level.fatal [] err] })) ∧
    (∀ (n : String) (w w1 : World) (cp : Project) (err : GoError),
      getProjectInCatalog catalog n = (cp, none) →
      getRepository env args cp
          ((w.emit (Event.log Level.warn [] ("Creating stable branch for project " ++ n))).emit
            (Event.log Level.info
              [("name", cp.Name), ("orga", cp.Organization),
               ("current_version", cp.Release.CurrentSnapshot),
               ("next_version", cp.Release.NextSnapshot)] "project found"))
        = (Except.error err, w1) →
      processProject env args catalog n w
        = (Outcome.exited 1, w1.emit (Event.log Level.fatal [] err))) ∧
    (∀ (n : String) (w w1 : World) (cp : Project) (r : Repository),
      getProjectInCatalog catalog n = (cp, none) →
      getRepository env args cp
          ((w.emit (Event.log Level.warn [] ("Creating stable branch for project " ++ n))).emit
            (Event.log Level.info
              [("name", cp.Name), ("orga", cp.Organization),
               ("current_version", cp.Release.CurrentSnapshot),
               ("next_version", cp.Release.NextSnapshot)] "project found"))
        = (Except.ok r, w1) →
      processProject env args catalog n w
        = (match checkoutAndResetBranch env r cp.Release.Branch
              (w1.emit (Event.log Level.info
                [("project", cp.Name), ("originBranch", cp.Release.Branch),
                 ("stableBranch", stableBranchName cp.Release.CurrentSnapshot)]
                "Creating stable branch")) with
           | (Outcome.exited c, w2) => (Outcome.exited c, w2)
           | (Outcome.returned _, w2) => (Outcome.returned (), w2))) ∧
    (∀ (n : String) (w w2 : World),
      processProject env args catalog n w = (Outcome.returned (), w2) →
      ∃ cp r w1,
        getProjectInCatalog catalog n = (cp, none) ∧
        getRepository env args cp
            ((w.emit (Event.log Level.warn [] ("Creating stable branch for project " ++ n))).emit
              (Event.log Level.info
                [("name", cp.Name), ("orga", cp.Organization),
                 ("current_version", cp.Release.CurrentSnapshot),
                 ("next_version", cp.Release.NextSnapshot)] "project found"))
          = (Except.ok r, w1) ∧
        checkoutAndResetBranch env r cp.Release.Branch
            (w1.emit (Event.log Level.info
              [("project", cp.Name), ("originBranch", cp.Release.Branch),
               ("stableBranch", stableBranchName cp.Release.CurrentSnapshot)]
              "Creating stable branch"))
          = (Outcome.returned (), w2)) ∧
    (∀ (names : List String) (w : World),
      ∃ k, k ≤ names.length ∧ (names ≠ [] → 1 ≤ k) ∧
        warnMessages (forProjects env args catalog names w).2.trace
          = warnMessages w.trace ++
              (names.take k).map (fun n => "Creating stable branch for project " ++ n) ∧
        ((forProjects env args catalog names w).1 = Outcome.returned () → k = names.length)) := by
  refine ⟨fun _ => rfl, fun _ _ _ => rfl, forProjects_append env args catalog, ?_,
    ?_, ?_, ?_, ?_, forProjects_warnMessages env args catalog⟩
  · intro pre n post w w1 w2 c hpre hn
    rw [forProjects_append, hpre]
    simp [forProjects, hn]
  · intro n w cp err hg
    exact processProject_of_absent env args catalog n w cp err hg
  · intro n w w1 cp err hg hr
    exact processProject_of_materialize_error env args catalog n w w1 cp err hg hr
  · intro n w w1 cp r hg hr
    exact processProject_of_repository env args catalog n w w1 cp r hg hr
  · intro n w w2 h
    exact processProject_returned env args catalog n w w2 () h

/-- C5 on the names doc-style, nope, platform-ui: doc-style is handled, the
unknown name ends the run, and what follows it is never touched: the run equals
the run over the first two names, and its only open is the one of doc-style. -/
theorem forProjects_in_order_fail_fast_witness :
    forProjects lenientEnv exampleArgs exampleCatalog ["doc-style", "nope", "platform-ui"]
        { fs := clonedFs, trace := [] }
      = forProjects lenientEnv exampleArgs exampleCatalog ["doc-style", "nope"]
        { fs := clonedFs, trace := [] } ∧
    (forProjects lenientEnv exampleArgs exampleCatalog ["doc-style", "nope", "platform-ui"]
        { fs := clonedFs, trace := [] }).1 = Outcome.exited 1 ∧
    openCalls (forProjects lenientEnv exampleArgs exampleCatalog
        ["doc-style", "nope", "platform-ui"] { fs := clonedFs, trace := [] }).2.trace
      = ["work/acme/doc-style"] ∧
    warnMessages (forProjects lenientEnv exampleArgs exampleCatalog
        ["doc-style", "nope", "platform-ui"] { fs := clonedFs, trace := [] }).2.trace
      = ["Creating stable branch for project doc-style",
         "Creating stable branch for project nope"] ∧
    processProject lenientEnv exampleArgs exampleCatalog "doc-style"
        { fs := clonedFs, trace := [] }
      = (Outcome.returned (),
         (checkoutAndResetBranch lenientEnv { handle := 1 } "main"
            ((getRepository lenientEnv exampleArgs docStyle
                (({ fs := clonedFs, trace := [] } : World).emit
                    (Event.log Level.warn [] "Creating stable branch for project doc-style")
                  |>.emit (Event.log Level.info
                    [("name", "doc-style"), ("orga", "acme"),
                     ("current_version", "2.1.0-SNAPSHOT"),
                     ("next_version", "2.2.0-SNAPSHOT")] "project found"))).2.emit
              (Event.log Level.info
                [("project", "doc-style"), ("originBranch", "main"),
                 ("stableBranch", "stable/2.1.0")] "Creating stable branch"))).2) := by
  have h := (forProjects_in_order_fail_fast lenientEnv exampleArgs exampleCatalog).2.2.2.1
    ["doc-style"] "nope" ["platform-ui"] { fs := clonedFs, trace := [] }
    (forProjects lenientEnv exampleArgs exampleCatalog ["doc-style"]
      { fs := clonedFs, trace := [] }).2
    (processProject lenientEnv exampleArgs exampleCatalog "nope"
      (forProjects lenientEnv exampleArgs exampleCatalog ["doc-style"]
        { fs := clonedFs, trace := [] }).2).2
    1 (by decide) (by decide)
  have h2 : forProjects lenientEnv exampleArgs exampleCatalog ["doc-style", "nope"]
      { fs := clonedFs, trace := [] }
      = (Outcome.exited 1,
        (processProject lenientEnv exampleArgs exampleCatalog "nope"
          (forProjects lenientEnv exampleArgs exampleCatalog ["doc-style"]
            { fs := clonedFs, trace := [] }).2).2) := by decide
  have h3 := (forProjects_in_order_fail_fast lenientEnv exampleArgs exampleCatalog).2.2.2.2.2.2.1
    "doc-style" { fs := clonedFs, trace := [] }
    (getRepository lenientEnv exampleArgs docStyle
      (({ fs := clonedFs, trace := [] } : World).emit
          (Event.log Level.warn [] "Creating stable branch for project doc-style")
        |>.emit (Event.log Level.info
          [("name", "doc-style"), ("orga", "acme"),
           ("current_version", "2.1.0-SNAPSHOT"),
           ("next_version", "2.2.0-SNAPSHOT")] "project found"))).2
    docStyle { handle := 1 } (by decide) (by decide)
  refine ⟨h.trans h2.symm, ?_, ?_, ?_, ?_⟩
  · rw [show ["doc-style", "nope", "platform-ui"] = ["doc-style"] ++ "nope" :: ["platform-ui"]
      from rfl, h]
  · rw [show ["doc-style", "nope", "platform-ui"] = ["doc-style"] ++ "nope" :: ["platform-ui"]
      from rfl, h]
    decide
  · rw [show ["doc-style", "nope", "platform-ui"] = ["doc-style"] ++ "nope" :: ["platform-ui"]
      from rfl, h]
    decide
  · rw [h3]
    decide

/-! ## The project list -/

theorem splitChars_spec (sep : Char) (l : List Char) :
    ∃ p ps, splitChars sep l = p :: ps ∧ l = p ++ (ps.map fun x => sep :: x).flatten ∧
      sep ∉ p ∧ (∀ x ∈ ps, sep ∉ x) ∧ ps.length = l.count sep := by
  induction l with
  | nil => exact ⟨[], [], by simp [splitChars]⟩
  | cons c cs ih =>
    obtain ⟨p, ps, hs, hl, hp, hps, hlen⟩ := ih
    by_cases hc : c = sep
    · refine ⟨[], p :: ps, by simp [splitChars, hc, hs], ?_, by simp, ?_, ?_⟩
      · simp [hc, ← hl]
      · intro x hx
        rcases List.mem_cons.mp hx with e | e
        · exact e ▸ hp
        · exact hps x e
      · simp [hc, hlen]
    · refine ⟨c :: p, ps, by simp [splitChars, hc, hs], ?_, ?_, hps, ?_⟩
      · simp [← hl]
      · intro hm
        rcases List.mem_cons.mp hm with e | e
        · exact hc e.symm
        · exact hp e
      · rw [List.count_cons_of_ne (fun e => hc e.symm)]
        exact hlen

theorem intercalate_singleton_cons (sep : Char) (p : List Char) (ps : List (List Char)) :
    [sep].intercalate (p :: ps) = p ++ (ps.map fun x => sep :: x).flatten := by
  induction ps generalizing p with
  | nil => simp [List.intercalate]
  | cons q ps ih =>
    have h := ih q
    simp only [List.intercalate] at h ⊢
    simp [List.intersperse, h]

theorem splitChars_eq_splitOn (sep : Char) (l : List Char) :
    splitChars sep l = l.splitOn sep := by
  obtain ⟨p, ps, hs, hl, hp, hps, _⟩ := splitChars_spec sep l
  have hmem : ∀ x ∈ p :: ps, sep ∉ x := by
    intro x hx
    rcases List.mem_cons.mp hx with e | e
    · exact e ▸ hp
    · exact hps x e
  have h := List.splitOn_intercalate (p :: ps) sep hmem (by simp)
  rw [intercalate_singleton_cons, ← hl] at h
  rw [hs, h]

theorem stringsSplitComma_data (a : String) :
    (stringsSplitComma a).map String.data = splitChars ',' a.data := by
  simp [stringsSplitComma, Function.comp_def]

theorem stringsSplitComma_intercalate (a : String) :
    ",".intercalate (stringsSplitComma a) = a := by
  obtain ⟨p, ps, hs, hl, _⟩ := splitChars_spec ',' a.data
  have h : stringsSplitComma a = String.mk p :: ps.map String.mk := by
    simp [stringsSplitComma, hs]
  apply String.ext
  rw [h, intercalate_cons_data]
  have hc : ",".data = [','] := rfl
  rw [hl, hc]
  simp [List.map_map, Function.comp_def]

theorem main_empty_argument (env : Env) (args : Args) (catalog : List Project) (w : World)
    (ha : args.Projects = "") (hc : ∀ p ∈ catalog, p.Name ≠ "") :
    main env args catalog w
      = (Outcome.exited 1,
         { fs := w.fs,
           trace := w.trace ++
             [Event.log Level.info [] "[]",
              Event.log Level.warn [] "Creating stable branch for project ",
              Event.log Level.fatal [] "No project  found in the catalog"] }) := by
  have hs : stringsSplitComma "" = [""] := by decide
  have hp : sprintStrings [""] = "[]" := by decide
  simp only [main, ha, hs, hp, forProjects]
  rw [processProject_of_absent env args catalog "" _ Project.zero
    ("No project " ++ "" ++ " found in the catalog") (getProjectInCatalog_absent catalog "" hc)]
  simp only [World.emit, List.append_assoc, List.cons_append, List.nil_append]
  rfl

/-- C10: the names the loop of `main` runs over are the pieces of the `Projects`
argument cut at every comma (the list `List.splitOn` gives), in order, nothing
trimmed and no empty piece dropped: joined by commas they give the argument
back, no piece holds a comma, and their number is the number of commas plus
one, so never zero. The names announced by the loop are a leading part of these
pieces, at least the first, and all of them when the run returns. The empty
argument gives the one name "": a catalog without an entry of that name makes
the run end at once in `log.Fatal` with the not-found message, and a catalog
with such an entry resolves it. -/
theorem main_names (env : Env) (args : Args) (catalog : List Project) (w : World) :
    (stringsSplitComma args.Projects).map String.data = args.Projects.data.splitOn ',' ∧
    ",".intercalate (stringsSplitComma args.Projects) = args.Projects ∧
    (∀ x ∈ stringsSplitComma args.Projects, ',' ∉ x.data) ∧
    (stringsSplitComma args.Projects).length = args.Projects.data.count ',' + 1 ∧
    stringsSplitComma args.Projects ≠ [] ∧
    stringsSplitComma "" = [""] ∧
    main env args catalog w
      = forProjects env args catalog (stringsSplitComma args.Projects)
          (w.emit (Event.log Level.info [] (sprintStrings (stringsSplitComma args.Projects)))) ∧
    (∃ k, 1 ≤ k ∧ k ≤ (stringsSplitComma args.Projects).length ∧
      warnMessages (main env args catalog w).2.trace
        = warnMessages w.trace ++ ((stringsSplitComma args.Projects).take k).map
            (fun n => "Creating stable branch for project " ++ n) ∧
      ((main env args catalog w).1 = Outcome.returned () →
        k = (stringsSplitComma args.Projects).length)) ∧
    (args.Projects = "" → (∀ p ∈ catalog, p.Name ≠ "") →
      main env args catalog w
        = (Outcome.exited 1,
           { fs := w.fs,
             trace := w.trace ++
               [Event.log Level.info [] "[]",
                Event.log Level.warn [] "Creating stable branch for project ",
                Event.log Level.fatal [] "No project  found in the catalog"] })) ∧
    ((∃ p ∈ catalog, p.Name = "") → (getProjectInCatalog catalog "").2 = none) := by
  obtain ⟨p, ps, hs, _, hp, hps, hlen⟩ := splitChars_spec ',' args.Projects.data
  have hsplit : stringsSplitComma args.Projects = String.mk p :: ps.map String.mk := by
    simp [stringsSplitComma, hs]
  have hne : stringsSplitComma args.Projects ≠ [] := by simp [hsplit]
  refine ⟨?_, stringsSplitComma_intercalate _, ?_, ?_, hne, by decide, rfl, ?_,
    main_empty_argument env args catalog w, ?_⟩
  · rw [stringsSplitComma_data, splitChars_eq_splitOn]
  · intro x hx
    rw [hsplit] at hx
    rcases List.mem_cons.mp hx with e | e
    · rw [e]
      exact hp
    · obtain ⟨y, hy, rfl⟩ := List.mem_map.mp e
      exact hps y hy
  · rw [hsplit]
    simp [hlen]
  · obtain ⟨k, hk, h1, htr, hret⟩ := forProjects_warnMessages env args catalog
      (stringsSplitComma args.Projects)
      (w.emit (Event.log Level.info [] (sprintStrings (stringsSplitComma args.Projects))))
    refine ⟨k, h1 hne, hk, ?_, hret⟩
    have he : warnMessages (w.emit (Event.log Level.info []
        (sprintStrings (stringsSplitComma args.Projects)))).trace = warnMessages w.trace := by
      simp [World.emit, warnMessages]
    rw [he] at htr
    exact htr
  · rintro ⟨q, hq, hn⟩
    obtain ⟨pre, x, post, hc, hx, hpre⟩ := exists_first_named catalog "" ⟨q, hq, hn⟩
    rw [hc, getProjectInCatalog_first pre x post "" hx hpre]

/-- C10 on the arguments "" and "a,,b ,": the empty argument is the one name "" and
ends the run of the example catalog with the not-found message; the second
argument is the four names "a", "", "b " and "". -/
theorem main_names_witness :
    main exampleEnv { exampleArgs with Projects := "" } exampleCatalog
        { fs := clonedFs, trace := [] }
      = (Outcome.exited 1,
         { fs := clonedFs,
           trace := [Event.log Level.info [] "[]",
                     Event.log Level.warn [] "Creating stable branch for project ",
                     Event.log Level.fatal [] "No project  found in the catalog"] }) ∧
    stringsSplitComma "a,,b ," = ["a", "", "b ", ""] ∧
    (stringsSplitComma "a,,b ,").length = "a,,b ,".data.count ',' + 1 :=
  ⟨(main_names exampleEnv { exampleArgs with Projects := "" } exampleCatalog
      { fs := clonedFs, trace := [] }).2.2.2.2.2.2.2.2.1 rfl (by decide),
   by decide,
   (main_names exampleEnv { exampleArgs with Projects := "a,,b ," } exampleCatalog
      { fs := clonedFs, trace := [] }).2.2.2.1⟩

end GitWorkflow
